import Mathlib

set_option maxHeartbeats 1600000

namespace BpmnNeo4j

/-! Shallow embedding of the BPMN-to-Neo4j transformation core
(`src/bpmn_neo4j`): the schema validator, the semantic validator's gateway
rules, the normalizer (`transform_input_elements.py`), the edge generator
(`edges.py`) and the pool/lane generator (`pool_lanes.py`).

Python dictionaries are embedded as insertion-ordered association lists
(assignment updates the first matching key in place, otherwise appends,
matching CPython dict semantics), `dict.get` as lookup with a default,
and values that may be absent or `None` as `Option`.  Nondeterministic
`uuid` identifiers are supplied by an injected generator `Nat → String`. -/

/-- Python truthiness of an optional string: `None` and `""` are falsy. -/
def truthy : Option String → Bool
  | none => false
  | some s => s ≠ ""

/-- Python `a or b` on optional strings: the first operand when truthy,
otherwise the second. -/
def pyOr (a b : Option String) : Option String :=
  if truthy a then a else b

/-- Python `a or b` on plain strings. -/
def pyOrS (a b : String) : String :=
  if a ≠ "" then a else b

/-- Rendering of an optional string inside a Python f-string: `None`
prints as the text `None`. -/
def pyStr : Option String → String
  | none => "None"
  | some s => s

/-- Helper of `strContains`: does `p` occur as a prefix of any suffix? -/
def infixOfAux (p : List Char) : List Char → Bool
  | [] => p.isPrefixOf []
  | c :: t => p.isPrefixOf (c :: t) || infixOfAux p t

/-- Python `pat in s` substring test on strings. -/
def strContains (s pat : String) : Bool :=
  infixOfAux pat.toList s.toList

/-- Python `s.lower()` (ASCII), implemented over the character list so
that it evaluates inside the kernel. -/
def pyLower (s : String) : String := String.mk (s.data.map Char.toLower)

/-- Python `s.upper()` (ASCII). -/
def pyUpper (s : String) : String := String.mk (s.data.map Char.toUpper)

/-- Python `s.strip()`: drop whitespace at both ends. -/
def pyTrim (s : String) : String :=
  String.mk (((s.data.dropWhile Char.isWhitespace).reverse.dropWhile Char.isWhitespace).reverse)

/-- Helper of `pyReplace`, structurally recursive on a character
budget that the caller instantiates with the string length. -/
def replaceFuel (old new : List Char) : Nat -> List Char -> List Char
  | _, [] => []
  | 0, l => l
  | fuel + 1, c :: t =>
      if old != [] && old.isPrefixOf (c :: t) then
        new ++ replaceFuel old new fuel ((c :: t).drop old.length)
      else c :: replaceFuel old new fuel t

/-- Python `s.replace(old, new)` for a nonempty pattern. -/
def pyReplace (s old new : String) : String :=
  String.mk (replaceFuel old.data new.data s.data.length s.data)

/-- Association-list lookup with a default, reading the first matching
key (Python `d.get(k, default)` / `defaultdict` access). -/
def alGetD {α β : Type} [DecidableEq α] : List (α × β) → α → β → β
  | [], _, d => d
  | (k', v) :: t, k, d => if k' = k then v else alGetD t k d

/-- Association-list key-membership test (Python `k in d`). -/
def alHas {α β : Type} [DecidableEq α] : List (α × β) → α → Bool
  | [], _ => false
  | (k', _) :: t, k => if k' = k then true else alHas t k

/-- Association-list assignment `d[k] = v`: update the first occurrence
of the key in place, otherwise append (CPython dict insertion order). -/
def alSet {α β : Type} [DecidableEq α] : List (α × β) → α → β → List (α × β)
  | [], k, v => [(k, v)]
  | (k', v') :: t, k, v => if k' = k then (k, v) :: t else (k', v') :: alSet t k v

/-- Python `d.setdefault(k, []).append(x)` on a dict of lists. -/
def alPush {α β : Type} [DecidableEq α] : List (α × List β) → α → β → List (α × List β)
  | [], k, x => [(k, [x])]
  | (k', v) :: t, k, x =>
      if k' = k then (k', v ++ [x]) :: t else (k', v) :: alPush t k x

/-- Optional nested `properties` object of a raw flow element. -/
structure Props where
  pool_id : Option String := none
  lane_id : Option String := none
deriving DecidableEq, Repr, Inhabited

/-- Raw flow element as decoded from JSON: only the keys the Python core
ever reads are carried; a missing key is `none`. -/
structure Element where
  id : Option String := none
  name : Option String := none
  type : Option String := none
  subType : Option String := none
  gateway_type : Option String := none
  properties : Option Props := none
  pool_id : Option String := none
  lane_id : Option String := none
  process_id : Option String := none
  processRef : Option String := none
  eventGatewayType : Option String := none
  incoming : Option (List String) := none
  outgoing : Option (List String) := none
  source : Option String := none
  target : Option String := none
deriving DecidableEq, Repr, Inhabited

/-- Raw pool object (keys read by the normalizer). -/
structure RawPool where
  id : Option String := none
  name : Option String := none
  processRef : Option String := none
  process_ref : Option String := none
  processId : Option String := none
deriving DecidableEq, Repr, Inhabited

/-- Raw lane object (keys read by the normalizer and `pool_lanes.py`). -/
structure RawLane where
  id : Option String := none
  name : Option String := none
  pool_id : Option String := none
deriving DecidableEq, Repr, Inhabited

/-- The `result` envelope of an input document; a missing collection key
is `none`. -/
structure ResultObj where
  flowElements : Option (List Element) := none
  messageFlows : Option (List Element) := none
  pools : Option (List RawPool) := none
  lanes : Option (List RawLane) := none
deriving DecidableEq, Repr, Inhabited

/-- Input document of `validate_schema` (`schema_validator.py`). -/
structure Doc where
  result : Option ResultObj := none
deriving DecidableEq, Repr, Inhabited

/-! ### schema_validator.py -/

/-- Embedding of `fix_missing_ids` (schema_validator.py lines 109-115):
each element whose `id` key is absent or falsy receives a fresh
`element_<hex>` id from the injected uuid source. -/
def fix_missing_ids (fresh : Nat → String) : Nat → List Element → List Element
  | _, [] => []
  | n, el :: t =>
      if truthy el.id then el :: fix_missing_ids fresh n t
      else { el with id := some ("element_" ++ fresh n) } :: fix_missing_ids fresh (n + 1) t

/-- Loop of `fix_duplicate_ids` (schema_validator.py lines 92-105) over
the `flowElements` list, carrying the per-original-id counter dict: the
first element with a given id keeps it (counter 0), the k-th duplicate is
renamed to `<id>_k`. -/
def fix_duplicate_ids_go (idc : List (String × Nat)) : List Element → List Element
  | [] => []
  | el :: t =>
      match el.id with
      | none => el :: fix_duplicate_ids_go idc t
      | some iid =>
          if iid = "" then el :: fix_duplicate_ids_go idc t
          else if alHas idc iid then
            let k := alGetD idc iid 0 + 1
            { el with id := some (iid ++ "_" ++ toString k) } ::
              fix_duplicate_ids_go (alSet idc iid k) t
          else el :: fix_duplicate_ids_go (alSet idc iid 0) t

/-- Embedding of `fix_duplicate_ids`, as a transformation of the
`flowElements` list it mutates in place. -/
def fix_duplicate_ids (els : List Element) : List Element :=
  fix_duplicate_ids_go [] els

/-- Embedding of `check_duplicate_ids` (schema_validator.py lines 78-88). -/
def check_duplicate_ids_go (seen : List String) : List Element → List String
  | [] => []
  | el :: t =>
      match el.id with
      | none => check_duplicate_ids_go seen t
      | some iid =>
          if iid = "" then check_duplicate_ids_go seen t
          else if iid ∈ seen then iid :: check_duplicate_ids_go (seen ++ [iid]) t
          else check_duplicate_ids_go (seen ++ [iid]) t

/-- Duplicate ids reported by `check_duplicate_ids`. -/
def check_duplicate_ids (els : List Element) : List String :=
  check_duplicate_ids_go [] els

/-- Edge list extracted by `detect_cycle` (schema_validator.py lines
173-179): one `(source, target)` pair per flow whose two endpoints are
truthy. -/
def edgesOf (flows : List Element) : List (String × String) :=
  flows.filterMap fun f =>
    match f.source, f.target with
    | some s, some t => if s ≠ "" ∧ t ≠ "" then some (s, t) else none
    | _, _ => none

/-- Adjacency dict of `detect_cycle` (`graph[src].append(tgt)`). -/
def cycleGraph (es : List (String × String)) : List (String × List String) :=
  es.foldl (fun g e => alPush g e.1 e.2) []

/-- Indegree dict of `detect_cycle` (`indegree[tgt] += 1`). -/
def cycleIndegree (es : List (String × String)) : List (String × Int) :=
  es.foldl (fun m e => alSet m e.2 (alGetD m e.2 0 + 1)) []

/-- Node set of `detect_cycle` (`nodes.update([src, tgt])`), with the
set modeled in insertion order. -/
def cycleNodes (es : List (String × String)) : List String :=
  es.foldl (fun ns e =>
    let ns := if e.1 ∈ ns then ns else ns ++ [e.1]
    if e.2 ∈ ns then ns else ns ++ [e.2]) []

/-- Number of entries of an indegree dict holding a positive count. -/
def posCount (l : List (String × Int)) : Nat :=
  l.countP (fun p => decide (0 < p.2))

/-- Body of the inner `for neighbor in graph[current]` loop of
`detect_cycle`: decrement the neighbor's indegree and enqueue it when the
new value is exactly zero. -/
def decStep (st : List (String × Int) × List String) (t : String) :
    List (String × Int) × List String :=
  let v := alGetD st.1 t 0 - 1
  let ind := alSet st.1 t v
  if v = 0 then (ind, st.2 ++ [t]) else (ind, st.2)

/-- The `while queue` loop of `detect_cycle`, returning the sequence of
popped nodes (the Python `visited` counter is this list's length).  The
loop is embedded with an explicit iteration bound: each iteration
removes one node from the queue and balances every enqueue against an
indegree entry dropping from positive to zero, so `posCount ind +
queue.length` decreases by exactly one per iteration and the bound
`posCount ind + queue.length` supplied by `detect_cycle` is never
exhausted while the queue is nonempty (proved in `kahnLoop_measure`
below). -/
def kahnLoop (graph : List (String × List String)) :
    Nat → List String → List (String × Int) → List String → List String
  | _, [], _, done => done
  | 0, _ :: _, _, done => done
  | fuel + 1, c :: q, ind, done =>
      let r := (alGetD graph c []).foldl decStep (ind, q)
      kahnLoop graph fuel r.2 r.1 (done ++ [c])

/-- Embedding of `detect_cycle` (schema_validator.py lines 166-192):
Kahn's algorithm over the `(source, target)` pairs of the given flows;
returns `true` when some node is never drained. -/
def detect_cycle (flows : List Element) : Bool :=
  let es := edgesOf flows
  let graph := cycleGraph es
  let indegree := cycleIndegree es
  let nodes := cycleNodes es
  let queue := nodes.filter (fun n => decide (alGetD indegree n 0 = 0))
  let doneF := kahnLoop graph (posCount indegree + queue.length) queue indegree []
  decide (doneF.length ≠ nodes.length)

/-- Failure modes of the Python functions that can raise. -/
inductive PyErr
  | ioError
  | fileNotFound
  | typeError
deriving DecidableEq, Repr

/-- Environment abstracting the resources `validate_schema` consumes:
the packaged schema descriptor, the file system, and the external
`jsonschema` library.  Schema descriptors are opaque handles; the
`jsonschema.validate` conformance check and the generic
`auto_fix_schema` repair (which walk raw JSON, not the typed document)
are abstracted as parameters since no claim depends on their
internals. -/
structure SchemaEnv where
  packaged : Option Nat
  files : String → Option Nat
  check : Nat → Doc → Bool
  autoFix : Nat → Doc → Doc

/-- Schema loading at the top of `validate_schema` (lines 13-18): the
packaged descriptor when no path is given, otherwise the named file;
unreachable resources are fatal. -/
def loadSchema (env : SchemaEnv) (schema_path : Option String) : Except PyErr Nat :=
  match schema_path with
  | none =>
      match env.packaged with
      | some h => Except.ok h
      | none => Except.error PyErr.ioError
  | some p =>
      match env.files p with
      | some h => Except.ok h
      | none => Except.error PyErr.fileNotFound

/-- Guarantee that the four `result` collections exist (lines 29-32). -/
def ensureKeys (r : ResultObj) : ResultObj :=
  { flowElements := some (r.flowElements.getD [])
    messageFlows := some (r.messageFlows.getD [])
    pools := some (r.pools.getD [])
    lanes := some (r.lanes.getD []) }

/-- Embedding of `validate_schema` (schema_validator.py lines 10-74).
The function ensures the `result` envelope and its four collections,
repairs ids when `auto_fix` is set, runs the cycle check on sequence
flows (a warning only), then re-opens `schema_path` (line 54) — a
`TypeError` when `schema_path` is `None` — and finally returns the
document whether or not it conforms to the schema. -/
def validate_schema (env : SchemaEnv) (data : Doc) (schema_path : Option String)
    (auto_fix : Bool) (fresh : Nat → String) : Except PyErr Doc := do
  let _ ← loadSchema env schema_path
  let r0 := data.result.getD {}
  let r1 := ensureKeys r0
  let els0 := r1.flowElements.getD []
  let els :=
    if auto_fix then fix_duplicate_ids (fix_missing_ids fresh 0 els0)
    else
      let _ := check_duplicate_ids els0
      els0
  let d2 : Doc := { result := some { r1 with flowElements := some els } }
  let _ := detect_cycle (els.filter (fun f => decide (pyLower (f.type.getD "") = "sequenceflow")))
  let h ← (match schema_path with
           | none => (Except.error PyErr.typeError : Except PyErr Nat)
           | some p =>
               match env.files p with
               | some h => Except.ok h
               | none => Except.error PyErr.fileNotFound)
  if env.check h d2 then pure d2
  else if auto_fix then pure (env.autoFix h d2)
  else pure d2

/-! ### transform_input_elements.py -/

/-- Normalized activity record, with exactly the keys the normalizer
writes (transform_input_elements.py lines 220-229). -/
structure NAct where
  id : Option String := none
  name : String := ""
  type : String := ""
  pool_id : Option String := none
  lane_id : Option String := none
  pool_name : String := ""
  lane_name : String := ""
  process_id : String := ""
deriving DecidableEq, Repr, Inhabited

/-- Normalized event record (lines 252-262). -/
structure NEvent where
  id : Option String := none
  name : String := ""
  type : String := ""
  event_type : String := ""
  pool_id : Option String := none
  lane_id : Option String := none
  pool_name : String := ""
  lane_name : String := ""
  process_id : String := ""
deriving DecidableEq, Repr, Inhabited

/-- Normalized gateway record (lines 236-246). -/
structure NGateway where
  id : Option String := none
  name : String := ""
  type : String := ""
  gateway_type : String := ""
  pool_id : Option String := none
  lane_id : Option String := none
  pool_name : String := ""
  lane_name : String := ""
  process_id : String := ""
deriving DecidableEq, Repr, Inhabited

/-- Normalized flow record (lines 196-213).  The four `source_pool` /
`source_lane` / `target_pool` / `target_lane` keys are never written by
the normalizer but are read (as absent) by `edges.py`, hence the `none`
defaults. -/
structure NFlow where
  id : Option String := none
  name : String := ""
  type : String := ""
  flow_type : String := ""
  source : Option String := none
  target : Option String := none
  gateway_id : Option String := none
  source_name : String := ""
  target_name : String := ""
  pool_name : String := ""
  lane_name : String := ""
  source_pool_name : String := ""
  target_pool_name : String := ""
  source_lane_name : String := ""
  target_lane_name : String := ""
  process_id : String := ""
  source_pool : Option String := none
  source_lane : Option String := none
  target_pool : Option String := none
  target_lane : Option String := none
deriving DecidableEq, Repr, Inhabited

/-- Normalized pool record (lines 267-275). -/
structure NPool where
  id : Option String := none
  name : String := ""
  type : String := ""
  process_ref : String := ""
deriving DecidableEq, Repr, Inhabited

/-- Normalized lane record (lines 277-284).  The normalizer writes only
`id`, `name` and `type`; the `pool_id` key it drops is carried as an
`Option` so that `generate_pools_lanes`, which reads
`lane.get("pool_id", "")`, can also be applied to lanes that still have
one. -/
structure NLane where
  id : Option String := none
  name : String := ""
  type : String := ""
  pool_id : Option String := none
deriving DecidableEq, Repr, Inhabited

/-- Output of `normalize_flow_elements`. -/
structure NormResult where
  activities : List NAct := []
  events : List NEvent := []
  gateways : List NGateway := []
  flows : List NFlow := []
  pools : List NPool := []
  lanes : List NLane := []
  process_id : String := ""
deriving DecidableEq, Repr, Inhabited

/-- Input document of `normalize_flow_elements`: the keys the function
reads (`result`, `flowElements`, `messageFlows`, `pools`, `lanes`,
`process_id`) together with the pre-structured collections
(`activities`, `events`, `gateways`, `flows`) that a pre-structured
document carries and the normalizer never reads. -/
structure NormInput where
  result : Option ResultObj := none
  flowElements : Option (List Element) := none
  messageFlows : Option (List Element) := none
  pools : Option (List RawPool) := none
  lanes : Option (List RawLane) := none
  process_id : Option String := none
  activities : Option (List NAct) := none
  events : Option (List NEvent) := none
  gateways : Option (List NGateway) := none
  flows : Option (List NFlow) := none
deriving DecidableEq, Repr, Inhabited

/-- Embedding of `normalize_json_structure` (lines 4-9): copy the four
collections out of the `result` envelope over the top-level keys. -/
def normalize_json_structure (d : NormInput) : NormInput :=
  match d.result with
  | none => d
  | some r =>
      { d with
        flowElements := match r.flowElements with | some v => some v | none => d.flowElements
        pools := match r.pools with | some v => some v | none => d.pools
        lanes := match r.lanes with | some v => some v | none => d.lanes
        messageFlows := match r.messageFlows with | some v => some v | none => d.messageFlows }

/-- Entry of the flow-endpoint map built by
`map_flows_to_source_target`. -/
structure FMEntry where
  source : Option String := none
  source_name : Option String := none
  target : Option String := none
  target_name : Option String := none
deriving DecidableEq, Repr, Inhabited

/-- Update of one entry of the flow-endpoint map
(`flow_map.setdefault(key, {})[...] = ...`). -/
def fmUpd (m : List (Option String × FMEntry)) (k : Option String)
    (f : FMEntry → FMEntry) : List (Option String × FMEntry) :=
  alSet m k (f (alGetD m k {}))

/-- Embedding of `map_flows_to_source_target` (lines 12-39). -/
def map_flows_to_source_target (elements : List Element) :
    List (Option String × FMEntry) :=
  elements.foldl (fun fm el =>
    let el_id := el.id
    let el_name := el.name.getD ""
    let el_type := pyLower (el.type.getD "")
    if strContains el_type "messageflow" then
      let fm := (el.incoming.getD []).foldl (fun fm src =>
        fmUpd fm el_id (fun e => { e with source := some src, source_name := some "" })) fm
      (el.outgoing.getD []).foldl (fun fm tgt =>
        fmUpd fm el_id (fun e => { e with target := some tgt, target_name := some "" })) fm
    else
      let fm := (el.outgoing.getD []).foldl (fun fm of =>
        fmUpd fm (some of) (fun e => { e with source := el_id, source_name := some el_name })) fm
      (el.incoming.getD []).foldl (fun fm inf =>
        fmUpd fm (some inf) (fun e => { e with target := el_id, target_name := some el_name })) fm)
    []

/-- Embedding of `_normalize_id` (lines 73-81). -/
def normalizeId : Option String → Option String
  | none => none
  | some v =>
      if v = "" then none
      else
        let s := pyLower (pyTrim v)
        if s = "" ∨ s = "none" ∨ s = "null" then none else some (pyTrim v)

/-- First truthy operand of a Python `or` chain whose last operand is
`""` (e.g. `a or b or ""`). -/
def firstTruthyD : List (Option String) → String
  | [] => ""
  | x :: t => match x with
      | some s => if s ≠ "" then s else firstTruthyD t
      | none => firstTruthyD t

/-- First truthy operand of a Python `or` chain, `none` when every
operand is falsy (callers feed the result to `_normalize_id`, which
erases the difference between a falsy value and `None`). -/
def firstTruthyO : List (Option String) → Option String
  | [] => none
  | x :: t => if truthy x then x else firstTruthyO t

/-- Python `s.endswith(suffix)`. -/
def strEndsWith (s suffix : String) : Bool :=
  suffix.toList.reverse.isPrefixOf s.toList.reverse

/-- Insertion-ordered deduplication, modeling iteration over a Python
set literal. -/
def dedupO (l : List (Option String)) : List (Option String) :=
  l.foldl (fun acc x => if x ∈ acc then acc else acc ++ [x]) []

/-- The `pool_name_by_id` map (line 63), keyed by pool id. -/
def poolNameById (pools : List RawPool) : List (Option String × String) :=
  pools.foldl (fun m p => alSet m p.id (p.name.getD "")) []

/-- The `pool_name_by_ref` map (lines 64-68), keyed by every truthy
reference among `processRef`, `process_ref`, `processId` and `id`. -/
def poolNameByRef (pools : List RawPool) : List (String × String) :=
  pools.foldl (fun m p =>
    (dedupO [p.processRef, p.process_ref, p.processId, p.id]).foldl (fun m ref =>
      match ref with
      | some s => if s ≠ "" then alSet m s (p.name.getD "") else m
      | none => m) m) []

/-- The `lane_name_map` (line 71), keyed by lane id. -/
def laneNameMap (lanes : List RawLane) : List (Option String × String) :=
  lanes.foldl (fun m l => alSet m l.id (l.name.getD "")) []

/-- Python `d.get(k)` on a map keyed by optional ids: `none` when the
key is absent, the (possibly empty, hence falsy) name otherwise. -/
def byIdGet (m : List (Option String × String)) (k : Option String) : Option String :=
  if alHas m k then some (alGetD m k "") else none

/-- Python `d.get(k)` on the `pool_name_by_ref` map, whose keys are
plain strings, applied to a possibly missing key. -/
def refGet (m : List (String × String)) (k : Option String) : Option String :=
  match k with
  | some s => if alHas m s then some (alGetD m s "") else none
  | none => none

/-- Context threaded through the normalizer's per-element loop: the
lookup maps of lines 47-71 plus the resolved process id. -/
structure NormCtx where
  element_by_id : List (Option String × Element) := []
  flow_map : List (Option String × FMEntry) := []
  pool_name_by_id : List (Option String × String) := []
  pool_name_by_ref : List (String × String) := []
  lane_name_map : List (Option String × String) := []
  data_process_id : Option String := none
  process_id : String := ""
deriving Inhabited

/-- Sub-type inference (lines 89-105). -/
def inferSubType (el : Element) (el_type : String) : String :=
  let sub := pyLower (el.subType.getD "")
  if sub ≠ "" then sub
  else if strContains el_type "startevent" then "startEvent"
  else if strContains el_type "endevent" then "endEvent"
  else if strContains el_type "intermediate" then "intermediateEvent"
  else if strContains el_type "exclusivegateway" then "exclusiveGateway"
  else if strContains el_type "parallelgateway" then "parallelGateway"
  else if strContains el_type "inclusivegateway" then "inclusiveGateway"
  else if strContains el_type "eventbasedgateway" || truthy el.eventGatewayType then "eventBasedGateway"
  else ""

/-- Body of the normalizer's per-element loop (lines 86-262): classify
the element by substring match on its lowered type and append the
corresponding record; elements matching no category are skipped. -/
def normStep (ctx : NormCtx) (acc : NormResult) (el : Element) : NormResult :=
  let el_type := pyLower (el.type.getD "")
  let sub_type := inferSubType el el_type
  let element_id := el.id
  let name := el.name.getD ""
  let props := el.properties.getD {}
  let pool_id := normalizeId (firstTruthyO [props.pool_id, el.pool_id, el.process_id, el.processRef])
  let lane_id := normalizeId (firstTruthyO [props.lane_id, el.lane_id])
  let pool_name0 :=
    if truthy pool_id then
      firstTruthyD [byIdGet ctx.pool_name_by_id pool_id, refGet ctx.pool_name_by_ref pool_id]
    else ""
  let pool_name :=
    if pool_name0 = "" then
      let proc := firstTruthyO [el.process_id, ctx.data_process_id, some ctx.process_id]
      firstTruthyD [refGet ctx.pool_name_by_ref proc, refGet ctx.pool_name_by_ref pool_id]
    else pool_name0
  let lane_name := if truthy lane_id then alGetD ctx.lane_name_map lane_id "" else ""
  if strContains el_type "flow" then
    let flow_info := alGetD ctx.flow_map element_id {}
    let source_id := flow_info.source
    let target_id := flow_info.target
    let source_el := if alHas ctx.element_by_id source_id then some (alGetD ctx.element_by_id source_id {}) else none
    let target_el := if alHas ctx.element_by_id target_id then some (alGetD ctx.element_by_id target_id {}) else none
    let source_props := (source_el.bind (·.properties)).getD {}
    let target_props := (target_el.bind (·.properties)).getD {}
    let src_pool_id := normalizeId (firstTruthyO
      [source_props.pool_id, source_el.bind (·.pool_id), source_el.bind (·.process_id)])
    let tgt_pool_id := normalizeId (firstTruthyO
      [target_props.pool_id, target_el.bind (·.pool_id), target_el.bind (·.process_id)])
    let src_pool_name := firstTruthyD
      [byIdGet ctx.pool_name_by_id src_pool_id, refGet ctx.pool_name_by_ref src_pool_id,
       refGet ctx.pool_name_by_ref (source_el.bind (·.process_id))]
    let tgt_pool_name := firstTruthyD
      [byIdGet ctx.pool_name_by_id tgt_pool_id, refGet ctx.pool_name_by_ref tgt_pool_id,
       refGet ctx.pool_name_by_ref (target_el.bind (·.process_id))]
    let src_lane_id := normalizeId (firstTruthyO [source_props.lane_id, source_el.bind (·.lane_id)])
    let tgt_lane_id := normalizeId (firstTruthyO [target_props.lane_id, target_el.bind (·.lane_id)])
    let src_lane_name := if truthy src_lane_id then alGetD ctx.lane_name_map src_lane_id "" else ""
    let tgt_lane_name := if truthy tgt_lane_id then alGetD ctx.lane_name_map tgt_lane_id "" else ""
    let flow_type := if strContains el_type "message" then "messageflow" else "sequenceflow"
    let gateway_id :=
      if strEndsWith (pyLower ((source_el.bind (·.type)).getD "")) "gateway" then source_id
      else if strEndsWith (pyLower ((target_el.bind (·.type)).getD "")) "gateway" then target_id
      else none
    { acc with flows := acc.flows ++ [{
        id := element_id
        name := name
        type := pyOrS sub_type el_type
        flow_type := flow_type
        source := source_id
        target := target_id
        gateway_id := gateway_id
        source_name := flow_info.source_name.getD ""
        target_name := flow_info.target_name.getD ""
        pool_name := pyOrS src_pool_name (pyOrS tgt_pool_name pool_name)
        lane_name := pyOrS src_lane_name (pyOrS tgt_lane_name lane_name)
        source_pool_name := src_pool_name
        target_pool_name := tgt_pool_name
        source_lane_name := src_lane_name
        target_lane_name := tgt_lane_name
        process_id := ctx.process_id }] }
  else if strContains el_type "task" then
    { acc with activities := acc.activities ++ [{
        id := element_id, name := name, type := el_type
        pool_id := pool_id, lane_id := lane_id
        pool_name := pool_name, lane_name := lane_name
        process_id := ctx.process_id }] }
  else if strContains el_type "gateway" || strContains el_type "eventbasedgateway" then
    let gw_type :=
      if sub_type ≠ "" then sub_type
      else if truthy el.gateway_type then el.gateway_type.getD ""
      else el_type
    { acc with gateways := acc.gateways ++ [{
        id := element_id, name := name, type := el_type
        gateway_type := pyLower gw_type
        pool_id := pool_id, lane_id := lane_id
        pool_name := pool_name, lane_name := lane_name
        process_id := ctx.process_id }] }
  else if strContains el_type "event" || strContains el_type "startevent" || strContains el_type "endevent" then
    { acc with events := acc.events ++ [{
        id := element_id, name := name, type := el_type
        event_type := pyOrS sub_type el_type
        pool_id := pool_id, lane_id := lane_id
        pool_name := pool_name, lane_name := lane_name
        process_id := ctx.process_id }] }
  else acc

/-- Embedding of `normalize_flow_elements` (lines 42-287).  The
nondeterministic `str(uuid.uuid4())` fallback for the process id is the
injected `freshPid`. -/
def normalize_flow_elements (data0 : NormInput) (pid : Option String)
    (freshPid : String) : NormResult :=
  let data := normalize_json_structure data0
  let elements := (data.flowElements.getD []) ++ (data.messageFlows.getD [])
  let process_id :=
    match firstTruthyO [pid, data.process_id] with
    | some s => s
    | none => freshPid
  let pools_raw := data.pools.getD []
  let lanes_raw := data.lanes.getD []
  let ctx : NormCtx := {
    element_by_id := elements.foldl (fun m el => alSet m el.id el) []
    flow_map := map_flows_to_source_target elements
    pool_name_by_id := poolNameById pools_raw
    pool_name_by_ref := poolNameByRef pools_raw
    lane_name_map := laneNameMap lanes_raw
    data_process_id := data.process_id
    process_id := process_id }
  let base := elements.foldl (normStep ctx) {}
  { base with
    pools := pools_raw.map (fun p => {
      id := p.id
      name := p.name.getD ""
      type := "Pool"
      process_ref := ((p.processRef).orElse (fun _ => p.process_ref)).getD "" })
    lanes := lanes_raw.map (fun l => {
      id := l.id
      name := l.name.getD ""
      type := "Lane"
      pool_id := none })
    process_id := process_id }

/-! ### edges.py -/

/-- Input of `generate_edges`: the collections it reads
(`elements.get("activities"/"events"/"gateways"/"flows")` and
`elements.get("flows_by_type", {}).get("message_flows", [])`). -/
structure EdgeElements where
  activities : List NAct := []
  events : List NEvent := []
  gateways : List NGateway := []
  flows : List NFlow := []
  message_flows : List NFlow := []
deriving DecidableEq, Repr, Inhabited

/-- View of a normalizer result as `generate_edges` input (the
normalizer emits no `flows_by_type` key). -/
def EdgeElements.ofNorm (r : NormResult) : EdgeElements :=
  { activities := r.activities, events := r.events, gateways := r.gateways
    flows := r.flows, message_flows := [] }

/-- Embedding of `build_gateway_map` (edges.py lines 4-25). -/
def build_gateway_map (els : EdgeElements) : List (Option String × String) :=
  els.gateways.foldl (fun m gw =>
    let gw_type := pyTrim (pyLower gw.gateway_type)
    let gw_name := pyLower gw.name
    let ty :=
      if gw_type ≠ "" then gw_type
      else if strContains gw_name "event" then "eventbasedgateway"
      else if strContains gw_name "complex" then "complexgateway"
      else if strContains gw_name "exclusive" then "exclusivegateway"
      else if strContains gw_name "parallel" then "parallelgateway"
      else if strContains gw_name "inclusive" then "inclusivegateway"
      else "gateway"
    alSet m gw.id ty) []

/-- Python `d.get(k)` on the gateway map. -/
def gwGet (m : List (Option String × String)) (k : Option String) : Option String :=
  if alHas m k then some (alGetD m k "") else none

/-- Embedding of `classify_gateway_direction` (edges.py lines 28-40). -/
def classify_gateway_direction (gateway_id : Option String)
    (incoming outgoing : List (Option String × List (NFlow × Option String)))
    (gateway_type : Option String) : String :=
  if truthy gateway_type && pyLower (gateway_type.getD "") == "eventbasedgateway" then "SPLIT"
  else
    let in_count := (alGetD incoming gateway_id []).length
    let out_count := (alGetD outgoing gateway_id []).length
    if out_count > 1 then "SPLIT"
    else if in_count > 1 then "JOIN"
    else "SINGLE"

/-- Embedding of `gateway_label` (edges.py lines 43-59). -/
def gateway_label (base_type : String) (direction : String) : String :=
  let lower := pyLower base_type
  let prefix_ :=
    if lower = "exclusivegateway" then "XOR"
    else if lower = "parallelgateway" then "AND"
    else if lower = "inclusivegateway" then "OR"
    else if lower = "complexgateway" then "COMPLEX"
    else if lower = "eventbasedgateway" then "EVENT_BASED"
    else "GATEWAY"
  let direction := if lower = "eventbasedgateway" then "SPLIT" else direction
  if direction = "SPLIT" ∨ direction = "JOIN" then prefix_ ++ "_" ++ direction
  else prefix_

/-- Invisible task synthesized between two directly connected gateways
(edges.py lines 92-106), with the pool/lane payload of its
`prev_node`. -/
structure InvTask where
  id : String
  name : String := "Invisible Task"
  type : String := "InvisibleTask"
  pool_id : Option String := none
  lane_id : Option String := none
  pool_name : Option String := none
  lane_name : Option String := none
deriving DecidableEq, Repr, Inhabited

/-- The gateway-chain set (edges.py lines 77-82): endpoints of flows
whose source and target are both gateways. -/
def gatewayChains (gm : List (Option String × String)) (originals : List NFlow) :
    List (Option String) :=
  originals.foldl (fun s f =>
    if alHas gm f.source ∧ alHas gm f.target then
      let s := if f.source ∈ s then s else s ++ [f.source]
      if f.target ∈ s then s else s ++ [f.target]
    else s) []

/-- Phase B of `generate_edges` (edges.py lines 85-118): for each flow
whose source and target are both gateways, synthesize one invisible
task (fresh id `invisible_<hex>` from the injected uuid source) and
replace the flow by the `<id>_inv_in` / `<id>_inv_out` pair routed
through it; all other flows pass unchanged. -/
def splitStep (gm : List (Option String × String)) (originals : List NFlow)
    (fresh : Nat → String) (st : List InvTask × List NFlow × Nat) (f : NFlow) :
    List InvTask × List NFlow × Nat :=
  let invs := st.1
  let nfs := st.2.1
  let n := st.2.2
  if alHas gm f.source ∧ alHas gm f.target then
    let invisible_id := "invisible_" ++ fresh n
    let fi := originals.find? (fun x => decide (x.source = f.source))
    let inv : InvTask := {
      id := invisible_id
      pool_id := fi.bind (·.source_pool)
      lane_id := fi.bind (·.source_lane)
      pool_name := fi.map (·.source_pool_name)
      lane_name := fi.map (·.source_lane_name) }
    (invs ++ [inv],
     (nfs ++ [{ f with id := some (pyStr f.id ++ "_inv_in"), target := some invisible_id },
              { f with id := some (pyStr f.id ++ "_inv_out"), source := some invisible_id }],
      n + 1))
  else (invs, (nfs ++ [f], n))

/-- The whole Phase-B loop: fold `splitStep` over the original flows,
returning the synthesized invisible tasks and the rewritten flow
list. -/
def splitGatewayFlows (gm : List (Option String × String)) (originals : List NFlow)
    (fresh : Nat → String) : List InvTask × List NFlow :=
  let r := originals.foldl (splitStep gm originals fresh) ([], ([], 0))
  (r.1, r.2.1)

/-- The `outgoing` dict of `generate_edges` (lines 124-129). -/
def buildOut (flows : List NFlow) : List (Option String × List (NFlow × Option String)) :=
  flows.foldl (fun m fl => alPush m fl.source (fl, fl.target)) []

/-- The `incoming` dict of `generate_edges` (lines 124-129). -/
def buildIn (flows : List NFlow) : List (Option String × List (NFlow × Option String)) :=
  flows.foldl (fun m fl => alPush m fl.target (fl, fl.source)) []

/-- The real-node set of `generate_edges` (lines 131-132 and 166):
activity ids, event ids, and the ids of the invisible tasks synthesized
during the same call. -/
def realNodesOf (els : EdgeElements) (fresh : Nat → String) : List (Option String) :=
  let gm := build_gateway_map els
  let originals := els.flows ++ els.message_flows
  let invs := (splitGatewayFlows gm originals fresh).1
  els.activities.map (·.id) ++ els.events.map (·.id) ++ invs.map (fun i => some i.id)

/-- Embedding of `find_real_targets` (edges.py lines 169-182): walk
`outgoing` through non-real nodes, collecting the first real node on
every branch; the mutable `visited` set is threaded through and
returned.  The Python recursion terminates because every call inserts
an unvisited key of `outgoing` into `visited`; the explicit `fuel`
bound (instantiated with one more than the number of `outgoing` keys)
makes that argument structural and is never exhausted. -/
def find_real_targets (outgoing : List (Option String × List (NFlow × Option String)))
    (real_nodes : List (Option String)) :
    Nat → Option String → List (Option String) →
    List (Option String) × List (Option String)
  | 0, _, visited => ([], visited)
  | fuel + 1, node, visited =>
      if node ∈ visited then ([], visited)
      else
        (alGetD outgoing node []).foldl
          (fun (st : List (Option String) × List (Option String)) p =>
            let tgt := p.2
            if tgt ∈ real_nodes then (st.1 ++ [tgt], st.2)
            else if alHas outgoing tgt then
              let r := find_real_targets outgoing real_nodes fuel tgt st.2
              (st.1 ++ r.1, r.2)
            else st)
          ([], visited ++ [node])

/-- Embedding of `find_real_sources` (edges.py lines 184-197), the
predecessor walk symmetric to `find_real_targets`. -/
def find_real_sources (incoming : List (Option String × List (NFlow × Option String)))
    (real_nodes : List (Option String)) :
    Nat → Option String → List (Option String) →
    List (Option String) × List (Option String)
  | 0, _, visited => ([], visited)
  | fuel + 1, node, visited =>
      if node ∈ visited then ([], visited)
      else
        (alGetD incoming node []).foldl
          (fun (st : List (Option String) × List (Option String)) p =>
            let src := p.2
            if src ∈ real_nodes then (st.1 ++ [src], st.2)
            else if alHas incoming src then
              let r := find_real_sources incoming real_nodes fuel src st.2
              (st.1 ++ r.1, r.2)
            else st)
          ([], visited ++ [node])

/-- ASCII approximation of Python `str.isidentifier()`; every label the
generator produces is ASCII. -/
def pyIsIdentifier (s : String) : Bool :=
  match s.toList with
  | [] => false
  | c :: t => (c.isAlpha || c = '_') && t.all (fun c => c.isAlphanum || c = '_')

/-- Statements appended by `generate_edges`, with the interpolated
f-string contents carried structurally: the invisible-task `CREATE`
(lines 158-165) and the `MATCH ... CREATE (a)-[:REL]->(b)` edge
statement (lines 253-257) with its distinguishing properties. -/
inductive EdgeStmt
  | createInvisible (id : String) (name : String) (type : String)
      (pool_id lane_id : Option String) (pool_name lane_name : Option String)
      (process_id : Option String)
  | relate (a b : Option String) (rel : String) (flow_id : Option String)
      (gateway_type direction : String) (gateway_id : String)
deriving DecidableEq, Repr

/-- Accumulator of the edge-emission loop: the `seen_edges` pair set
and the statement list. -/
structure EmitState where
  seen : List (Option String × Option String) := []
  cypher : List EdgeStmt := []
deriving DecidableEq, Repr, Inhabited

/-- Embedding of the `add_edge` closure (edges.py lines 249-257):
append the edge statement unless the endpoint pair was already
emitted. -/
def add_edge (rel : String) (fid : Option String) (gt dir gid : String)
    (st : EmitState) (a b : Option String) : EmitState :=
  if (a, b) ∈ st.seen then st
  else { seen := st.seen ++ [(a, b)]
         cypher := st.cypher ++ [EdgeStmt.relate a b rel fid gt dir gid] }

/-- Relationship-label resolution of the edge-emission loop (edges.py
lines 202-232): the sanitized relationship name together with the
gateway type, direction and id attached to the flow. -/
def flowLabel (gm : List (Option String × String)) (gwdirs : List (Option String × String))
    (flow : NFlow) : String × String × String × String :=
  let src := flow.source
  let tgt := flow.target
  let flow_type := pyLower (pyOrS flow.flow_type flow.type)
  let msgRel := if strContains flow_type "messageflow" then "MESSAGE_FLOW" else "SEQUENCE_FLOW"
  let r4 : String × String × String × String :=
    if alHas gm src then
      let gtype := alGetD gm src ""
      let direction := alGetD gwdirs src "SINGLE"
      (gateway_label gtype direction, gtype, direction, pyStr src)
    else if alHas gm tgt then
      let gtype := alGetD gm tgt ""
      let direction := alGetD gwdirs tgt "SINGLE"
      (gateway_label gtype direction, gtype, direction, pyStr tgt)
    else
      let src_name := pyLower flow.source_name
      if strContains src_name "gateway" then
        (gateway_label "gateway" "SINGLE", "gateway", "SINGLE", pyStr src)
      else (msgRel, "", "", "")
  let rel0 := pyReplace (pyReplace (pyUpper r4.1) " " "_") "-" "_"
  let rel_name := if pyIsIdentifier rel0 then rel0 else "FLOW"
  (rel_name, r4.2.1, r4.2.2.1, r4.2.2.2)

/-- Body of the edge-emission loop of `generate_edges` (edges.py lines
200-319) for one rewritten flow. -/
def emitFlow (gm : List (Option String × String)) (gwdirs : List (Option String × String))
    (chains : List (Option String))
    (incoming outgoing : List (Option String × List (NFlow × Option String)))
    (real_nodes : List (Option String)) (fuel : Nat)
    (st : EmitState) (flow : NFlow) : EmitState :=
  let src := flow.source
  let tgt := flow.target
  let lbl := flowLabel gm gwdirs flow
  let rel_name := lbl.1
  let gtype := lbl.2.1
  let direction := lbl.2.2.1
  let gateway_id := lbl.2.2.2
  let add := add_edge rel_name flow.id gtype direction gateway_id
  if gtype = "eventbasedgateway" then
    let targets := if tgt ∈ real_nodes then [tgt]
                   else (find_real_targets outgoing real_nodes fuel tgt []).1
    targets.foldl (fun st t => add st src t) st
  else if src ∈ real_nodes ∧ tgt ∉ real_nodes then
    if tgt ∈ chains then
      if (alGetD outgoing src []).length = 1 then
        ((find_real_targets outgoing real_nodes fuel tgt []).1).foldl (fun st t => add st src t) st
      else st
    else
      ((find_real_targets outgoing real_nodes fuel tgt []).1).foldl (fun st t => add st src t) st
  else if src ∉ real_nodes ∧ tgt ∈ real_nodes then
    if src ∈ chains then
      if (alGetD incoming tgt []).length = 1 then
        ((find_real_sources incoming real_nodes fuel src []).1).foldl (fun st s => add st s tgt) st
      else st
    else
      ((find_real_sources incoming real_nodes fuel src []).1).foldl (fun st s => add st s tgt) st
  else if src ∉ real_nodes ∧ tgt ∉ real_nodes then
    let ss := (find_real_sources incoming real_nodes fuel src []).1
    let ts := (find_real_targets outgoing real_nodes fuel tgt []).1
    ss.foldl (fun st s => ts.foldl (fun st t => add st s t) st) st
  else
    add st src tgt

/-- Emission of one invisible task (edges.py lines 141-166): append its
`CREATE (a:Activity ...)` statement and add its id to the real-node
set. -/
def invisibleStep (pid : Option String) (p : List EdgeStmt × List (Option String))
    (inv : InvTask) : List EdgeStmt × List (Option String) :=
  (p.1 ++ [EdgeStmt.createInvisible inv.id inv.name inv.type inv.pool_id inv.lane_id
             inv.pool_name inv.lane_name pid],
   p.2 ++ [some inv.id])

/-- Embedding of `generate_edges` (edges.py lines 66-321), with the
uuid source for invisible-task ids injected. -/
def generate_edges (els : EdgeElements) (process_id : Option String)
    (fresh : Nat → String) : List EdgeStmt :=
  let gm := build_gateway_map els
  let originals := els.flows ++ els.message_flows
  let chains := gatewayChains gm originals
  let sp := splitGatewayFlows gm originals fresh
  let invs := sp.1
  let all_flows := sp.2
  let incoming := buildIn all_flows
  let outgoing := buildOut all_flows
  let gwdirs := gm.foldl (fun m kv =>
    alSet m kv.1 (classify_gateway_direction kv.1 incoming outgoing (gwGet gm kv.1))) []
  let base_real := els.activities.map (·.id) ++ els.events.map (·.id)
  let withInv := invs.foldl (invisibleStep process_id) ([], base_real)
  let real_nodes := withInv.2
  let fuel := outgoing.length + 1
  let final := all_flows.foldl (emitFlow gm gwdirs chains incoming outgoing real_nodes fuel)
    { seen := [], cypher := withInv.1 }
  final.cypher

/-! ### pool_lanes.py -/

/-- Statements of `generate_pools_lanes`, carried structurally. -/
inductive PLStmt
  | createPool (id : Option String) (name type process_ref : String) (process_id : Option String)
  | createLane (id : Option String) (name type pool_id : String) (process_id : Option String)
  | belongsTo (lane_id : Option String) (pool_id : String)
deriving DecidableEq, Repr

/-- Embedding of `generate_pools_lanes` (pool_lanes.py lines 1-25): one
`CREATE (:Pool ...)` per pool, one `CREATE (:Lane ...)` per lane
carrying `lane.get("pool_id", "")`, followed by a `BELONGS_TO`
relationship only when that pool id is truthy. -/
def generate_pools_lanes (elements : NormResult) (process_id : Option String) : List PLStmt :=
  let cy := elements.pools.foldl (fun cy pool =>
    cy ++ [PLStmt.createPool pool.id pool.name pool.type pool.process_ref process_id]) []
  elements.lanes.foldl (fun cy lane =>
    let pool_id := lane.pool_id.getD ""
    let cy := cy ++ [PLStmt.createLane lane.id lane.name lane.type pool_id process_id]
    if pool_id ≠ "" then cy ++ [PLStmt.belongsTo lane.id pool_id] else cy) cy

/-! ### bpmn_semantic_validator.py -/

/-- Gateway diagnostics of `validate_gateways`, carried structurally:
the three distinct error messages of bpmn_semantic_validator.py lines
190, 193 and 201. -/
inductive SemErr
  | gw0134Split (gid : Option String) (gtype : String)
  | gw0134Parallel (gid : Option String)
  | gw0138 (gid : Option String)
deriving DecidableEq, Repr

/-- Gateway type resolution of `validate_gateways` (line 178):
`gw.get("subType", "").lower() or gw.get("gateway_type", "").lower()`. -/
def resolvedGwType (gw : Element) : String :=
  pyOrS (pyLower (gw.subType.getD "")) (pyLower (gw.gateway_type.getD ""))

/-- Diagnostics `validate_gateways` appends for one gateway
(bpmn_semantic_validator.py lines 176-201). -/
def gatewayErrs (incoming outgoing : Option String → List (Option String))
    (events : List Element) (gw : Element) : List SemErr :=
  let gid := gw.id
  let gtype := resolvedGwType gw
  let in_count := (incoming gid).length
  let out_count := (outgoing gid).length
  if gtype = "exclusivegateway" ∨ gtype = "inclusivegateway" then
    if in_count ≤ 1 ∧ out_count < 2 then [SemErr.gw0134Split gid gtype] else []
  else if gtype = "parallelgateway" then
    if in_count < 2 ∧ out_count < 2 then [SemErr.gw0134Parallel gid] else []
  else if gtype = "eventbasedgateway" then
    (outgoing gid).filterMap (fun target_id =>
      if events.any (fun e => decide (e.id = target_id) &&
          strContains (pyLower (e.subType.getD "")) "intermediatecatch") then none
      else some (SemErr.gw0138 gid))
  else []

/-- Embedding of `validate_gateways` (bpmn_semantic_validator.py lines
174-202) over the incoming/outgoing endpoint maps built by
`validate_semantics`. -/
def validate_gateways (gateways : List Element)
    (incoming outgoing : Option String → List (Option String))
    (events : List Element) : List SemErr :=
  gateways.foldl (fun errs gw => errs ++ gatewayErrs incoming outgoing events gw) []

/-! ### Specification vocabulary and concrete test inputs -/

/-- Edge relation of the directed graph a flow list induces. -/
def edgeRel (es : List (String × String)) (a b : String) : Prop :=
  (a, b) ∈ es

/-- A directed graph contains a cycle: some node reaches itself by a
nonempty edge path. -/
def hasCycle (es : List (String × String)) : Prop :=
  ∃ v, Relation.TransGen (edgeRel es) v v

/-- Total indegree of a node: the number of edges into it. -/
def indeg0 (es : List (String × String)) (v : String) : Nat :=
  es.countP (fun e => decide (e.2 = v))

/-- Number of edges into `v` whose source lies in `S` (with
multiplicity over the edge list). -/
def outFrom (es : List (String × String)) (S : List String) (v : String) : Nat :=
  es.countP (fun e => decide (e.2 = v) && decide (e.1 ∈ S))

/-- Number of edges from `c` to `v` in the edge list. -/
def edgesFromC (es : List (String × String)) (c v : String) : Nat :=
  es.countP (fun e => decide (e.1 = c) && decide (e.2 = v))

/-- Invariant of the Kahn drain loop of `detect_cycle`, relating the
queue, the current indegree table and the popped-so-far list `done`:
the table holds the original indegree minus the edges already processed
(those from `done`); popped and queued nodes are distinct nodes of the
graph with no remaining indegree, every untouched node still has
positive remaining indegree, a queued node has all its in-edges inside
`done`, and `done` is topologically sorted. -/
structure KahnInv (es : List (String × String)) (q : List String)
    (ind : List (String × Int)) (done : List String) : Prop where
  ind_spec : ∀ v, alGetD ind v 0 = (indeg0 es v : Int) - (outFrom es done v : Int)
  nodup : (done ++ q).Nodup
  mem_nodes : ∀ v ∈ done ++ q, v ∈ cycleNodes es
  pos_unseen : ∀ v ∈ cycleNodes es, v ∉ done → v ∉ q → 0 < alGetD ind v 0
  nonpos_seen : ∀ v ∈ done ++ q, alGetD ind v 0 ≤ 0
  q_srcs_done : ∀ v ∈ q, ∀ e ∈ es, e.2 = v → e.1 ∈ done
  topo : ∀ (i : Nat) (h : i < done.length), ∀ e ∈ es, e.2 = done.get ⟨i, h⟩ →
    e.1 ∈ done.take i

/-- An edge statement's target lies in the given real-node set
(non-edge statements are unconstrained). -/
def relTargetReal (rn : List (Option String)) : EdgeStmt → Bool
  | EdgeStmt.relate _ b _ _ _ _ _ => decide (b ∈ rn)
  | _ => true

/-- Both endpoints of an edge statement lie in the given real-node
set. -/
def relBothReal (rn : List (Option String)) : EdgeStmt → Bool
  | EdgeStmt.relate a b _ _ _ _ _ => decide (a ∈ rn) && decide (b ∈ rn)
  | _ => true

/-- Bool test for a flow whose source and target are both gateways. -/
def isGwPair (gm : List (Option String × String)) (f : NFlow) : Bool :=
  alHas gm f.source && alHas gm f.target

/-- Whether a statement is an invisible-task `CREATE`. -/
def isCreateInvisible : EdgeStmt → Bool
  | EdgeStmt.createInvisible .. => true
  | _ => false

/-- Whether a pool/lane statement is a `BELONGS_TO` relationship. -/
def isBelongsTo : PLStmt → Bool
  | PLStmt.belongsTo .. => true
  | _ => false

/-- Test input: duplicate ids `X`, `X_1`, `X` for the duplicate-id
repair. -/
def exC4 : List Element :=
  [{ id := some "X" }, { id := some "X_1" }, { id := some "X" }]

/-- Test input: activity `A`, event `E`, event-based gateway `G`, flows
`A → G → E`. -/
def exC1 : EdgeElements :=
  { activities := [{ id := some "A", name := "Task A", type := "usertask", process_id := "p" }]
    events := [{ id := some "E", name := "Done", type := "intermediatecatchevent", process_id := "p" }]
    gateways := [{ id := some "G", name := "", type := "eventbasedgateway"
                   gateway_type := "eventbasedgateway", process_id := "p" }]
    flows := [{ id := some "f1", type := "sequenceflow", flow_type := "sequenceflow"
                source := some "A", target := some "G", process_id := "p" },
              { id := some "f2", type := "sequenceflow", flow_type := "sequenceflow"
                source := some "G", target := some "E", process_id := "p" }] }

/-- Test input: one gateway pair `(g1, g2)` directly connected by two
parallel sequence flows. -/
def exC2 : EdgeElements :=
  { gateways := [{ id := some "g1", name := "", type := "exclusivegateway"
                   gateway_type := "exclusivegateway", process_id := "p" },
                 { id := some "g2", name := "", type := "parallelgateway"
                   gateway_type := "parallelgateway", process_id := "p" }]
    flows := [{ id := some "s", type := "sequenceflow", flow_type := "sequenceflow"
                source := some "g1", target := some "g2", process_id := "p" },
              { id := some "t", type := "sequenceflow", flow_type := "sequenceflow"
                source := some "g1", target := some "g2", process_id := "p" }] }

/-- Test input: a pre-structured document (top-level collections, no
`result` envelope and no `flowElements`). -/
def exC5Act : NAct :=
  { id := some "a1", name := "Task A", type := "usertask", process_id := "p" }

/-- Pre-structured document for the normalizer round-trip check. -/
def exC5 : NormInput :=
  { activities := some [exC5Act]
    events := some []
    gateways := some []
    flows := some [{ id := some "f1", type := "sequenceflow", flow_type := "sequenceflow"
                     source := some "a1", target := some "a1", process_id := "p" }]
    pools := some []
    lanes := some [] }

/-- Test input: a pool `P` and a lane `L` belonging to it. -/
def exC9 : NormInput :=
  { pools := some [{ id := some "P", name := some "Pool1" }]
    lanes := some [{ id := some "L", name := some "Lane1", pool_id := some "P" }] }

/-- Concrete schema environment with a reachable packaged schema. -/
def exEnv : SchemaEnv :=
  { packaged := some 0
    files := fun p => if p = "schema.json" then some 1 else none
    check := fun _ _ => true
    autoFix := fun _ d => d }

/-- Test input: two sequence flows forming the cycle `A → B → A`. -/
def exC7 : List Element :=
  [{ id := some "fa", type := some "sequenceFlow", source := some "A", target := some "B" },
   { id := some "fb", type := some "sequenceFlow", source := some "B", target := some "A" }]

/-- Test input: a diverging exclusive gateway with a single outgoing
flow. -/
def exC8gw : Element :=
  { id := some "gw1", type := some "exclusiveGateway", subType := some "exclusiveGateway" }

/-- Iterate a function from a seed (used to trace predecessor chains
when arguing about undrained nodes of the Kahn loop). -/
def iterStep {T : Type} (z : T) (f : T → T) : Nat → T :=
  fun n => Nat.rec z (fun _ x => f x) n

/-! ## Theorems -/

/-- C4 (divergence evidence): on flow elements with ids `X`, `X_1`, `X`,
`fix_duplicate_ids` renames the third element to `X_1`, which collides
with the second element's original id, so ids are not pairwise distinct
after the auto-fix. -/
theorem fix_duplicate_ids_collision :
    (fix_duplicate_ids exC4).map Element.id = [some "X", some "X_1", some "X_1"] ∧
    ¬ ((fix_duplicate_ids exC4).map Element.id).Nodup := by decide

/-- C9 (divergence evidence): a lane entering the pipeline with
`pool_id = "P"` loses its pool reference in `normalize_flow_elements`,
so `generate_pools_lanes` emits its Lane statement with an empty
`pool_id` and no `BELONGS_TO` relationship is emitted at all. -/
theorem pools_lanes_no_belongs_to :
    (normalize_flow_elements exC9 (some "pid") "u").lanes =
      [{ id := some "L", name := "Lane1", type := "Lane", pool_id := none }] ∧
    generate_pools_lanes (normalize_flow_elements exC9 (some "pid") "u") (some "pid") =
      [PLStmt.createPool (some "P") "Pool1" "Pool" "" (some "pid"),
       PLStmt.createLane (some "L") "Lane1" "Lane" "" (some "pid")] ∧
    (generate_pools_lanes (normalize_flow_elements exC9 (some "pid") "u") (some "pid")).all
      (fun s => !(isBelongsTo s)) = true := by decide

/-- C3 (divergence evidence): with the default `schema_path = None`,
`validate_schema` loads the packaged schema but then unconditionally
re-opens `schema_path` (line 54), so every call with the default path
raises `TypeError` instead of succeeding. -/
theorem validate_schema_default_path_raises (env : SchemaEnv) (data : Doc) (af : Bool)
    (fresh : Nat → String) (h : Nat) (hp : env.packaged = some h) :
    validate_schema env data none af fresh = Except.error PyErr.typeError := by
  simp only [validate_schema, loadSchema, hp]
  rfl

/-- Witness for `validate_schema_default_path_raises` at a concrete
environment whose packaged schema is reachable. -/
theorem validate_schema_default_path_raises_witness :
    validate_schema exEnv {} none true (fun _ => "a") = Except.error PyErr.typeError :=
  validate_schema_default_path_raises exEnv {} true (fun _ => "a") 0 rfl

/-- C1 (counterexample): on `exC1`, the dedicated event-based-gateway
branch emits an edge whose source is the event-based gateway `G`
itself, which is not in the real-nodes set, refuting the claim that
every emitted edge has both endpoints in the real-nodes set. -/
theorem generate_edges_eventbased_nonreal_source :
    ¬ (∀ s ∈ generate_edges exC1 (some "p") (fun _ => "x"),
        relBothReal (realNodesOf exC1 (fun _ => "x")) s = true) := by decide

/-- C2 (counterexample): on `exC2`, both input flows connect the single
gateway pair `(g1, g2)`, yet two invisible tasks are synthesized (one
per flow), refuting the claim that exactly one invisible task is
synthesized per directly connected gateway pair. -/
theorem invisible_tasks_not_unique_per_pair :
    exC2.flows.all (fun f => decide (f.source = some "g1" ∧ f.target = some "g2")) = true ∧
    (generate_edges exC2 (some "p") (fun n => toString n)).countP isCreateInvisible = 2 ∧
    (generate_edges exC2 (some "p") (fun n => toString n)).countP isCreateInvisible ≠ 1 := by
  decide

/-- C5 (counterexample): on the pre-structured document `exC5`, the
normalizer returns empty `activities` and `flows` collections instead
of the input collections, so `normalize_flow_elements` is not a no-op
on pre-structured inputs. -/
theorem normalize_not_noop_on_prestructured :
    (normalize_flow_elements exC5 (some "p") "u").activities = [] ∧
    exC5.activities = some [exC5Act] ∧
    (normalize_flow_elements exC5 (some "p") "u").activities ≠ exC5.activities.getD [] ∧
    (normalize_flow_elements exC5 (some "p") "u").flows = [] ∧
    (normalize_flow_elements exC5 (some "p") "u").flows ≠ exC5.flows.getD [] := by decide

/-- The infix scan agrees with list-level infix. -/
theorem infixOfAux_iff (p : List Char) : ∀ l, infixOfAux p l = true ↔ p <:+: l := by
  intro l
  induction l with
  | nil => simp [infixOfAux, List.isPrefixOf_iff_prefix]
  | cons c t ih => simp [infixOfAux, List.isPrefixOf_iff_prefix, List.infix_cons_iff, ih]

/-- The substring test agrees with list-level infix. -/
theorem strContains_infixOf_iff (s pat : String) :
    strContains s pat = true ↔ pat.toList <:+: s.toList := by
  unfold strContains
  exact infixOfAux_iff _ _

/-- Substring containment is monotone along infix patterns. -/
theorem strContains_mono {s p q : String} (h : strContains s q = true)
    (hpq : p.toList <:+: q.toList) : strContains s p = true := by
  rw [strContains_infixOf_iff] at h ⊢
  exact hpq.trans h

/-- C10: an element whose lowered type string contains none of the
substrings `task`, `gateway`, `event`, `flow` is placed in none of the
normalizer's output collections: the per-element loop body leaves the
accumulator unchanged. -/
theorem normStep_drops_unclassified (ctx : NormCtx) (acc : NormResult) (el : Element)
    (htask : strContains (pyLower (el.type.getD "")) "task" = false)
    (hgw : strContains (pyLower (el.type.getD "")) "gateway" = false)
    (hev : strContains (pyLower (el.type.getD "")) "event" = false)
    (hfl : strContains (pyLower (el.type.getD "")) "flow" = false) :
    normStep ctx acc el = acc := by
  have hb : ∀ p q : String, strContains (pyLower (el.type.getD "")) p = false →
      strContains q p = true → strContains (pyLower (el.type.getD "")) q = false := by
    intro p q hp hqp
    cases h : strContains (pyLower (el.type.getD "")) q
    · rfl
    · exact absurd (strContains_mono h ((strContains_infixOf_iff q p).mp hqp)) (by simp [hp])
  have hgw2 := hb "gateway" "eventbasedgateway" hgw (by decide)
  have hev2 := hb "event" "startevent" hev (by decide)
  have hev3 := hb "event" "endevent" hev (by decide)
  simp [normStep, htask, hgw, hev, hfl, hgw2, hev2, hev3]

/-- Witness for `normStep_drops_unclassified`: a `dataObject` element is
dropped. -/
theorem normStep_drops_unclassified_witness :
    normStep {} {} { id := some "d1", type := some "dataObject" } = {} :=
  normStep_drops_unclassified {} {} { id := some "d1", type := some "dataObject" }
    (by decide) (by decide) (by decide) (by decide)

/-- C6: `classify_gateway_direction` returns `SPLIT` exactly when the
gateway is an event-based gateway or its fan-out exceeds one, `JOIN`
exactly when it is not event-based, fan-out is at most one and fan-in
exceeds one, and `SINGLE` otherwise. -/
theorem classify_gateway_direction_cases (gid : Option String)
    (incoming outgoing : List (Option String × List (NFlow × Option String)))
    (gt : Option String) :
    (classify_gateway_direction gid incoming outgoing gt = "SPLIT" ↔
      (truthy gt && pyLower (gt.getD "") == "eventbasedgateway") = true ∨
        (alGetD outgoing gid []).length > 1) ∧
    (classify_gateway_direction gid incoming outgoing gt = "JOIN" ↔
      (truthy gt && pyLower (gt.getD "") == "eventbasedgateway") = false ∧
        (alGetD outgoing gid []).length ≤ 1 ∧ (alGetD incoming gid []).length > 1) ∧
    (classify_gateway_direction gid incoming outgoing gt = "SINGLE" ↔
      (truthy gt && pyLower (gt.getD "") == "eventbasedgateway") = false ∧
        (alGetD outgoing gid []).length ≤ 1 ∧ (alGetD incoming gid []).length ≤ 1) := by
  by_cases h1 : (truthy gt && pyLower (gt.getD "") == "eventbasedgateway") = true <;>
    by_cases h2 : (alGetD outgoing gid []).length > 1 <;>
    by_cases h3 : (alGetD incoming gid []).length > 1 <;>
    simp_all [classify_gateway_direction] <;> split_ifs <;> simp_all <;> try omega

/-- Witness for `classify_gateway_direction_cases`: a mixed-case
event-based gateway type forces `SPLIT` with empty maps. -/
theorem classify_gateway_direction_cases_witness :
    classify_gateway_direction (some "g") [] [] (some "eventBasedGateway") = "SPLIT" :=
  (classify_gateway_direction_cases (some "g") [] [] (some "eventBasedGateway")).1.mpr
    (Or.inl (by decide))

/-- C5 (amended): on a pre-structured document (no `result` envelope,
no `flowElements`, no `messageFlows`), the normalizer is not a no-op:
it returns empty `activities`, `events`, `gateways` and `flows`
collections — the pre-structured collections are dropped — and reduces
pools and lanes to their id/name/type(/process_ref) projections. -/
theorem normalize_prestructured_drops (d : NormInput) (pid : Option String) (fp : String)
    (h1 : d.result = none) (h2 : d.flowElements = none) (h3 : d.messageFlows = none) :
    (normalize_flow_elements d pid fp).activities = [] ∧
    (normalize_flow_elements d pid fp).events = [] ∧
    (normalize_flow_elements d pid fp).gateways = [] ∧
    (normalize_flow_elements d pid fp).flows = [] ∧
    (normalize_flow_elements d pid fp).pools = (d.pools.getD []).map (fun p =>
      { id := p.id, name := p.name.getD "", type := "Pool",
        process_ref := ((p.processRef).orElse (fun _ => p.process_ref)).getD "" }) ∧
    (normalize_flow_elements d pid fp).lanes = (d.lanes.getD []).map (fun l =>
      { id := l.id, name := l.name.getD "", type := "Lane", pool_id := none }) := by
  simp [normalize_flow_elements, normalize_json_structure, h1, h2, h3]

/-- Witness for `normalize_prestructured_drops` at the concrete
pre-structured document `exC5`. -/
theorem normalize_prestructured_drops_witness :
    (normalize_flow_elements exC5 (some "p") "u").activities = [] ∧
    (normalize_flow_elements exC5 (some "p") "u").events = [] ∧
    (normalize_flow_elements exC5 (some "p") "u").gateways = [] ∧
    (normalize_flow_elements exC5 (some "p") "u").flows = [] ∧
    (normalize_flow_elements exC5 (some "p") "u").pools = (exC5.pools.getD []).map (fun p =>
      { id := p.id, name := p.name.getD "", type := "Pool",
        process_ref := ((p.processRef).orElse (fun _ => p.process_ref)).getD "" }) ∧
    (normalize_flow_elements exC5 (some "p") "u").lanes = (exC5.lanes.getD []).map (fun l =>
      { id := l.id, name := l.name.getD "", type := "Lane", pool_id := none }) :=
  normalize_prestructured_drops exC5 (some "p") "u" rfl rfl rfl

/-- Folding list-append of a pointwise generator equals the flat map. -/
theorem foldl_append_bind {α β : Type} (f : α → List β) :
    ∀ (l : List α) (a : List β), l.foldl (fun acc x => acc ++ f x) a = a ++ l.flatMap f := by
  intro l
  induction l with
  | nil => simp
  | cons x t ih => intro a; simp only [List.foldl_cons, ih, List.flatMap_cons, List.append_assoc]

/-- The gateway validator is the flat map of its per-gateway
diagnostics. -/
theorem validate_gateways_eq (gws : List Element)
    (inc out : Option String → List (Option String)) (evs : List Element) :
    validate_gateways gws inc out evs = gws.flatMap (gatewayErrs inc out evs) := by
  unfold validate_gateways
  simpa using foldl_append_bind (gatewayErrs inc out evs) gws []

/-- C8: for an exclusive or inclusive gateway, a BPMN 0134 violation is
reported exactly when the gateway is diverging (at most one incoming
flow) and has fewer than two outgoing flows; in particular a converging
such gateway with a single outgoing flow is never reported. -/
theorem validate_gateways_0134_iff (gws : List Element)
    (inc out : Option String → List (Option String)) (evs : List Element) (gw : Element)
    (hnd : (gws.map Element.id).Nodup) (hmem : gw ∈ gws)
    (ht : resolvedGwType gw = "exclusivegateway" ∨ resolvedGwType gw = "inclusivegateway") :
    (SemErr.gw0134Split gw.id (resolvedGwType gw) ∈ validate_gateways gws inc out evs) ↔
      ((inc gw.id).length ≤ 1 ∧ (out gw.id).length < 2) := by
  rw [validate_gateways_eq, List.mem_flatMap]
  constructor
  · rintro ⟨gw', hgw', herr⟩
    simp only [gatewayErrs] at herr
    by_cases h1 : resolvedGwType gw' = "exclusivegateway" ∨ resolvedGwType gw' = "inclusivegateway"
    · rw [if_pos h1] at herr
      by_cases h2 : (inc gw'.id).length ≤ 1 ∧ (out gw'.id).length < 2
      · rw [if_pos h2] at herr
        rw [List.mem_singleton] at herr
        obtain ⟨hid, -⟩ := SemErr.gw0134Split.inj herr
        have : gw = gw' := List.inj_on_of_nodup_map hnd hmem hgw' hid
        subst this
        exact h2
      · rw [if_neg h2] at herr
        simp at herr
    · rw [if_neg h1] at herr
      by_cases h3 : resolvedGwType gw' = "parallelgateway"
      · rw [if_pos h3] at herr
        split_ifs at herr <;> simp at herr
      · rw [if_neg h3] at herr
        by_cases h4 : resolvedGwType gw' = "eventbasedgateway"
        · rw [if_pos h4] at herr
          rw [List.mem_filterMap] at herr
          obtain ⟨t, -, hsome⟩ := herr
          split_ifs at hsome <;> simp at hsome
        · rw [if_neg h4] at herr
          simp at herr
  · rintro ⟨hin, hout⟩
    refine ⟨gw, hmem, ?_⟩
    simp only [gatewayErrs]
    rw [if_pos ht, if_pos ⟨hin, hout⟩]
    exact List.mem_singleton_self _

/-- Witness for `validate_gateways_0134_iff`: a diverging exclusive
gateway with no incoming and one outgoing flow is reported. -/
theorem validate_gateways_0134_iff_witness :
    SemErr.gw0134Split exC8gw.id (resolvedGwType exC8gw) ∈
      validate_gateways [exC8gw] (fun _ => []) (fun _ => [some "x"]) [] :=
  (validate_gateways_0134_iff [exC8gw] (fun _ => []) (fun _ => [some "x"]) [] exC8gw
    (by decide) (by decide) (by decide)).mpr ⟨by decide, by decide⟩

/-- Characterization of the Phase-B fold: one invisible task per
both-gateway flow, the two rewritten flows routed through it, all other
flows kept, and nothing else produced. -/
theorem splitStep_foldl_spec (gm : List (Option String × String)) (orig : List NFlow)
    (fresh : Nat → String) :
    ∀ (l : List NFlow) (invs : List InvTask) (nfs : List NFlow) (n : Nat),
      ((l.foldl (splitStep gm orig fresh) (invs, (nfs, n))).1.length
          = invs.length + l.countP (isGwPair gm)) ∧
      (∀ x ∈ nfs, x ∈ (l.foldl (splitStep gm orig fresh) (invs, (nfs, n))).2.1) ∧
      (∀ f ∈ l, isGwPair gm f = true → ∃ u,
          { f with id := some (pyStr f.id ++ "_inv_in"), target := some ("invisible_" ++ u) }
            ∈ (l.foldl (splitStep gm orig fresh) (invs, (nfs, n))).2.1 ∧
          { f with id := some (pyStr f.id ++ "_inv_out"), source := some ("invisible_" ++ u) }
            ∈ (l.foldl (splitStep gm orig fresh) (invs, (nfs, n))).2.1) ∧
      (∀ f ∈ l, isGwPair gm f = false →
          f ∈ (l.foldl (splitStep gm orig fresh) (invs, (nfs, n))).2.1) ∧
      (∀ g ∈ (l.foldl (splitStep gm orig fresh) (invs, (nfs, n))).2.1,
          g ∈ nfs ∨ (g ∈ l ∧ isGwPair gm g = false) ∨
          ∃ f, f ∈ l ∧ isGwPair gm f = true ∧ ∃ v,
            (g = { f with id := some (pyStr f.id ++ "_inv_in"), target := v } ∨
             g = { f with id := some (pyStr f.id ++ "_inv_out"), source := v })) := by
  intro l
  induction l with
  | nil =>
      intro invs nfs n
      refine ⟨by simp, by simp, by simp, by simp, ?_⟩
      intro g hg
      exact Or.inl hg
  | cons f t ih =>
      intro invs nfs n
      by_cases hp : isGwPair gm f = true
      · have hcond : alHas gm f.source = true ∧ alHas gm f.target = true := by
          have h' := hp
          unfold isGwPair at h'
          simp only [Bool.and_eq_true] at h'
          exact h'
        have hstep : splitStep gm orig fresh (invs, (nfs, n)) f =
            (invs ++ [{ id := "invisible_" ++ fresh n
                        pool_id := (orig.find? (fun x => decide (x.source = f.source))).bind (·.source_pool)
                        lane_id := (orig.find? (fun x => decide (x.source = f.source))).bind (·.source_lane)
                        pool_name := (orig.find? (fun x => decide (x.source = f.source))).map (·.source_pool_name)
                        lane_name := (orig.find? (fun x => decide (x.source = f.source))).map (·.source_lane_name) }],
             (nfs ++ [{ f with id := some (pyStr f.id ++ "_inv_in"), target := some ("invisible_" ++ fresh n) },
                      { f with id := some (pyStr f.id ++ "_inv_out"), source := some ("invisible_" ++ fresh n) }],
              n + 1)) := by
          simp only [splitStep]
          rw [if_pos hcond]
        rw [List.foldl_cons, hstep]
        obtain ⟨ihlen, ihmono, ihpair, ihkeep, ihcompl⟩ := ih _ _ (n + 1)
        refine ⟨?_, ?_, ?_, ?_, ?_⟩
        · rw [ihlen]
          simp [List.countP_cons, hp]
          omega
        · intro x hx
          exact ihmono x (List.mem_append_left _ hx)
        · intro f' hf' hpf'
          rcases List.mem_cons.mp hf' with heq | hmem'
          · subst heq
            refine ⟨fresh n, ?_, ?_⟩
            · exact ihmono _ (List.mem_append_right _ (by simp))
            · exact ihmono _ (List.mem_append_right _ (by simp))
          · exact ihpair f' hmem' hpf'
        · intro f' hf' hpf'
          rcases List.mem_cons.mp hf' with heq | hmem'
          · subst heq
            exact absurd hp (by simp [hpf'])
          · exact ihkeep f' hmem' hpf'
        · intro g hg
          rcases ihcompl g hg with hnfs | hrest | hex
          · rcases List.mem_append.mp hnfs with h | h
            · exact Or.inl h
            · rcases List.mem_cons.mp h with heq | h
              · exact Or.inr (Or.inr ⟨f, List.mem_cons_self _ _, hp,
                  some ("invisible_" ++ fresh n), Or.inl heq⟩)
              · rcases List.mem_singleton.mp h with heq
                exact Or.inr (Or.inr ⟨f, List.mem_cons_self _ _, hp,
                  some ("invisible_" ++ fresh n), Or.inr heq⟩)
          · exact Or.inr (Or.inl ⟨List.mem_cons_of_mem _ hrest.1, hrest.2⟩)
          · obtain ⟨f', hf', hpf', v, hv⟩ := hex
            exact Or.inr (Or.inr ⟨f', List.mem_cons_of_mem _ hf', hpf', v, hv⟩)
      · have hpf : isGwPair gm f = false := by
          cases h : isGwPair gm f
          · rfl
          · exact absurd h hp
        have hcond : ¬ (alHas gm f.source = true ∧ alHas gm f.target = true) := by
          intro hc
          apply hp
          unfold isGwPair
          simp only [Bool.and_eq_true]
          exact hc
        have hstep : splitStep gm orig fresh (invs, (nfs, n)) f = (invs, (nfs ++ [f], n)) := by
          simp only [splitStep]
          rw [if_neg hcond]
        rw [List.foldl_cons, hstep]
        obtain ⟨ihlen, ihmono, ihpair, ihkeep, ihcompl⟩ := ih invs (nfs ++ [f]) n
        refine ⟨?_, ?_, ?_, ?_, ?_⟩
        · rw [ihlen]
          simp [List.countP_cons, hpf]
        · intro x hx
          exact ihmono x (List.mem_append_left _ hx)
        · intro f' hf' hpf'
          rcases List.mem_cons.mp hf' with heq | hmem'
          · subst heq
            exact absurd hpf' (by simp [hpf])
          · exact ihpair f' hmem' hpf'
        · intro f' hf' hpf'
          rcases List.mem_cons.mp hf' with heq | hmem'
          · subst heq
            exact ihmono f' (List.mem_append_right _ (by simp))
          · exact ihkeep f' hmem' hpf'
        · intro g hg
          rcases ihcompl g hg with hnfs | hrest | hex
          · rcases List.mem_append.mp hnfs with h | h
            · exact Or.inl h
            · rcases List.mem_singleton.mp h with heq
              subst heq
              exact Or.inr (Or.inl ⟨List.mem_cons_self _ _, hpf⟩)
          · exact Or.inr (Or.inl ⟨List.mem_cons_of_mem _ hrest.1, hrest.2⟩)
          · obtain ⟨f', hf', hpf', v, hv⟩ := hex
            exact Or.inr (Or.inr ⟨f', List.mem_cons_of_mem _ hf', hpf', v, hv⟩)

/-- C2 (amended): for every flow whose source and target are both
gateways, exactly one invisible task (id prefixed `invisible_`) is
synthesized — their number equals the number of such flows — and the
flow is replaced by the `<id>_inv_in` / `<id>_inv_out` pair routed
through the invisible task; every other flow passes through unchanged
and no other flow is rewritten. -/
theorem splitGatewayFlows_per_flow (gm : List (Option String × String))
    (originals : List NFlow) (fresh : Nat → String) :
    ((splitGatewayFlows gm originals fresh).1.length = originals.countP (isGwPair gm)) ∧
    (∀ f ∈ originals, isGwPair gm f = true → ∃ u,
        { f with id := some (pyStr f.id ++ "_inv_in"), target := some ("invisible_" ++ u) }
          ∈ (splitGatewayFlows gm originals fresh).2 ∧
        { f with id := some (pyStr f.id ++ "_inv_out"), source := some ("invisible_" ++ u) }
          ∈ (splitGatewayFlows gm originals fresh).2) ∧
    (∀ f ∈ originals, isGwPair gm f = false → f ∈ (splitGatewayFlows gm originals fresh).2) ∧
    (∀ g ∈ (splitGatewayFlows gm originals fresh).2,
        (g ∈ originals ∧ isGwPair gm g = false) ∨
        ∃ f, f ∈ originals ∧ isGwPair gm f = true ∧ ∃ v,
          (g = { f with id := some (pyStr f.id ++ "_inv_in"), target := v } ∨
           g = { f with id := some (pyStr f.id ++ "_inv_out"), source := v })) := by
  obtain ⟨hlen, hmono, hpair, hkeep, hcompl⟩ :=
    splitStep_foldl_spec gm originals fresh originals [] [] 0
  refine ⟨by simpa [splitGatewayFlows] using hlen, ?_, ?_, ?_⟩
  · intro f hf hp
    obtain ⟨u, h1, h2⟩ := hpair f hf hp
    exact ⟨u, h1, h2⟩
  · intro f hf hp
    exact hkeep f hf hp
  · intro g hg
    rcases hcompl g hg with hnil | hrest | hex
    · exact absurd hnil (List.not_mem_nil g)
    · exact Or.inl hrest
    · exact Or.inr hex

/-- Witness for `splitGatewayFlows_per_flow`: the first flow of `exC2`
is rewritten through a fresh invisible task. -/
theorem splitGatewayFlows_per_flow_witness :
    ∃ u,
      { ({ id := some "s", type := "sequenceflow", flow_type := "sequenceflow"
           source := some "g1", target := some "g2", process_id := "p" } : NFlow) with
          id := some (pyStr (some "s") ++ "_inv_in"), target := some ("invisible_" ++ u) }
        ∈ (splitGatewayFlows (build_gateway_map exC2) (exC2.flows ++ exC2.message_flows)
            (fun n => String.mk (List.replicate n 'a'))).2 ∧
      { ({ id := some "s", type := "sequenceflow", flow_type := "sequenceflow"
           source := some "g1", target := some "g2", process_id := "p" } : NFlow) with
          id := some (pyStr (some "s") ++ "_inv_out"), source := some ("invisible_" ++ u) }
        ∈ (splitGatewayFlows (build_gateway_map exC2) (exC2.flows ++ exC2.message_flows)
            (fun n => String.mk (List.replicate n 'a'))).2 :=
  (splitGatewayFlows_per_flow (build_gateway_map exC2) (exC2.flows ++ exC2.message_flows)
    (fun n => String.mk (List.replicate n 'a'))).2.1
    { id := some "s", type := "sequenceflow", flow_type := "sequenceflow"
      source := some "g1", target := some "g2", process_id := "p" }
    (by decide) (by decide)

/-- A present key pairs with its looked-up value in the association
list. -/
theorem alHas_getD_mem {α β : Type} [DecidableEq α] (m : List (α × β)) (k : α) (d : β)
    (h : alHas m k = true) : (k, alGetD m k d) ∈ m := by
  induction m with
  | nil => simp [alHas] at h
  | cons p t ih =>
      obtain ⟨k', v⟩ := p
      by_cases hk : k' = k
      · subst hk
        simp [alGetD]
      · simp only [alHas, if_neg hk] at h
        simp only [alGetD, if_neg hk]
        exact List.mem_cons_of_mem _ (ih h)

/-- Invariance of a predicate under a left fold whose step preserves
it. -/
theorem foldl_pres {α σ : Type _} (inv : σ → Prop) (f : σ → α → σ) :
    ∀ (l : List α) (st : σ), inv st →
      (∀ st' a, a ∈ l → inv st' → inv (f st' a)) → inv (l.foldl f st) := by
  intro l
  induction l with
  | nil => intro st h _; simpa using h
  | cons x t ih =>
      intro st h hstep
      rw [List.foldl_cons]
      exact ih _ (hstep st x (List.mem_cons_self _ _) h)
        (fun st' a ha h' => hstep st' a (List.mem_cons_of_mem _ ha) h')

/-- Every node returned by `find_real_targets` is a real node. -/
theorem find_real_targets_sub (out : List (Option String × List (NFlow × Option String)))
    (rn : List (Option String)) :
    ∀ (fuel : Nat) (node : Option String) (visited : List (Option String)),
      ∀ x ∈ (find_real_targets out rn fuel node visited).1, x ∈ rn := by
  intro fuel
  induction fuel with
  | zero => intro node visited x hx; simp [find_real_targets] at hx
  | succ n ih =>
      intro node visited x hx
      rw [find_real_targets] at hx
      by_cases hv : node ∈ visited
      · rw [if_pos hv] at hx
        simp at hx
      · rw [if_neg hv] at hx
        refine foldl_pres (fun st : List (Option String) × List (Option String) => ∀ y ∈ st.1, y ∈ rn) _ _ _ (by simp) ?_ x hx
        intro st' p _ hinv
        dsimp only
        split_ifs with h1 h2
        · intro y hy
          rcases List.mem_append.mp hy with hm | hm
          · exact hinv y hm
          · rw [List.mem_singleton.mp hm]
            exact h1
        · intro y hy
          rcases List.mem_append.mp hy with hm | hm
          · exact hinv y hm
          · exact ih p.2 st'.2 y hm
        · exact hinv

/-- Every node returned by `find_real_sources` is a real node. -/
theorem find_real_sources_sub (inc : List (Option String × List (NFlow × Option String)))
    (rn : List (Option String)) :
    ∀ (fuel : Nat) (node : Option String) (visited : List (Option String)),
      ∀ x ∈ (find_real_sources inc rn fuel node visited).1, x ∈ rn := by
  intro fuel
  induction fuel with
  | zero => intro node visited x hx; simp [find_real_sources] at hx
  | succ n ih =>
      intro node visited x hx
      rw [find_real_sources] at hx
      by_cases hv : node ∈ visited
      · rw [if_pos hv] at hx
        simp at hx
      · rw [if_neg hv] at hx
        refine foldl_pres (fun st : List (Option String) × List (Option String) => ∀ y ∈ st.1, y ∈ rn) _ _ _ (by simp) ?_ x hx
        intro st' p _ hinv
        dsimp only
        split_ifs with h1 h2
        · intro y hy
          rcases List.mem_append.mp hy with hm | hm
          · exact hinv y hm
          · rw [List.mem_singleton.mp hm]
            exact h1
        · intro y hy
          rcases List.mem_append.mp hy with hm | hm
          · exact hinv y hm
          · exact ih p.2 st'.2 y hm
        · exact hinv

/-- `add_edge` preserves any statement predicate satisfied by the new
edge. -/
theorem add_edge_pres (Q : EdgeStmt → Bool) (rel : String) (fid : Option String)
    (gt dir gid : String) (st : EmitState) (a b : Option String)
    (h : ∀ s ∈ st.cypher, Q s = true)
    (hQ : Q (EdgeStmt.relate a b rel fid gt dir gid) = true) :
    ∀ s ∈ (add_edge rel fid gt dir gid st a b).cypher, Q s = true := by
  unfold add_edge
  split
  · exact h
  · intro s hs
    rcases List.mem_append.mp hs with h1 | h1
    · exact h s h1
    · rw [List.mem_singleton.mp h1]
      exact hQ

/-- If the label resolution yields gateway type `eventbasedgateway`,
some gateway of the map has that type. -/
theorem flowLabel_eventbased (gm gwdirs : List (Option String × String)) (flow : NFlow)
    (h : (flowLabel gm gwdirs flow).2.1 = "eventbasedgateway") :
    ∃ k, (k, "eventbasedgateway") ∈ gm := by
  simp only [flowLabel] at h
  by_cases h1 : alHas gm flow.source = true
  · rw [if_pos h1] at h
    simp only at h
    refine ⟨flow.source, ?_⟩
    have hm := alHas_getD_mem gm flow.source "" h1
    rwa [h] at hm
  · rw [if_neg h1] at h
    by_cases h2 : alHas gm flow.target = true
    · rw [if_pos h2] at h
      simp only at h
      refine ⟨flow.target, ?_⟩
      have hm := alHas_getD_mem gm flow.target "" h2
      rwa [h] at hm
    · rw [if_neg h2] at h
      split_ifs at h <;> simp_all

/-- The edge-emission loop body preserves the invariant that every
emitted edge statement's target is a real node. -/
theorem emitFlow_pres_target (gm gwdirs : List (Option String × String))
    (chains : List (Option String))
    (inc out : List (Option String × List (NFlow × Option String)))
    (rn : List (Option String)) (fuel : Nat) (st : EmitState) (flow : NFlow)
    (h : ∀ s ∈ st.cypher, relTargetReal rn s = true) :
    ∀ s ∈ (emitFlow gm gwdirs chains inc out rn fuel st flow).cypher,
      relTargetReal rn s = true := by
  have haddT : ∀ (rel : String) (fid : Option String) (gt dir gid : String)
      (st' : EmitState) (a b : Option String),
      (∀ s ∈ st'.cypher, relTargetReal rn s = true) → b ∈ rn →
      ∀ s ∈ (add_edge rel fid gt dir gid st' a b).cypher, relTargetReal rn s = true :=
    fun rel fid gt dir gid st' a b h' hb =>
      add_edge_pres _ rel fid gt dir gid st' a b h' (by simp [relTargetReal, hb])
  have hfoldT : ∀ (rel : String) (fid : Option String) (gt dir gid : String)
      (a : Option String) (ts : List (Option String)) (st' : EmitState),
      (∀ s ∈ st'.cypher, relTargetReal rn s = true) → (∀ t ∈ ts, t ∈ rn) →
      ∀ s ∈ (ts.foldl (fun st t => add_edge rel fid gt dir gid st a t) st').cypher,
        relTargetReal rn s = true := by
    intro rel fid gt dir gid a ts st' h' hts
    exact foldl_pres (fun st : EmitState => ∀ s ∈ st.cypher, relTargetReal rn s = true)
      _ ts st' h' (fun st'' t ht hinv => haddT rel fid gt dir gid st'' a t hinv (hts t ht))
  have hfoldS : ∀ (rel : String) (fid : Option String) (gt dir gid : String)
      (b : Option String) (ss : List (Option String)) (st' : EmitState),
      (∀ s ∈ st'.cypher, relTargetReal rn s = true) → b ∈ rn →
      ∀ s ∈ (ss.foldl (fun st a => add_edge rel fid gt dir gid st a b) st').cypher,
        relTargetReal rn s = true := by
    intro rel fid gt dir gid b ss st' h' hb
    exact foldl_pres (fun st : EmitState => ∀ s ∈ st.cypher, relTargetReal rn s = true)
      _ ss st' h' (fun st'' a _ hinv => haddT rel fid gt dir gid st'' a b hinv hb)
  simp only [emitFlow]
  split_ifs with h1 h2 h3 h4 h5 h6 h7 h8 h9
  · exact hfoldT _ _ _ _ _ _ _ _ h (by intro t ht; rw [List.mem_singleton.mp ht]; exact h2)
  · exact hfoldT _ _ _ _ _ _ _ _ h (fun t ht => find_real_targets_sub out rn fuel _ _ t ht)
  · exact hfoldT _ _ _ _ _ _ _ _ h (fun t ht => find_real_targets_sub out rn fuel _ _ t ht)
  · exact h
  · exact hfoldT _ _ _ _ _ _ _ _ h (fun t ht => find_real_targets_sub out rn fuel _ _ t ht)
  · exact hfoldS _ _ _ _ _ _ _ _ h h6.2
  · exact h
  · exact hfoldS _ _ _ _ _ _ _ _ h h6.2
  · exact foldl_pres (fun st : EmitState => ∀ s ∈ st.cypher, relTargetReal rn s = true)
      _ _ _ h (fun st'' a _ hinv =>
        hfoldT _ _ _ _ _ a _ st'' hinv
          (fun t ht => find_real_targets_sub out rn fuel _ _ t ht))
  · have htgt : flow.target ∈ rn := by tauto
    exact haddT _ _ _ _ _ _ _ _ h htgt

/-- The edge-emission loop body preserves the invariant that every
emitted edge statement has both endpoints real, provided no gateway of
the map is an event-based gateway. -/
theorem emitFlow_pres_both (gm gwdirs : List (Option String × String))
    (chains : List (Option String))
    (inc out : List (Option String × List (NFlow × Option String)))
    (rn : List (Option String)) (fuel : Nat) (st : EmitState) (flow : NFlow)
    (hEB : ∀ kv ∈ gm, kv.2 ≠ "eventbasedgateway")
    (h : ∀ s ∈ st.cypher, relBothReal rn s = true) :
    ∀ s ∈ (emitFlow gm gwdirs chains inc out rn fuel st flow).cypher,
      relBothReal rn s = true := by
  have haddB : ∀ (rel : String) (fid : Option String) (gt dir gid : String)
      (st' : EmitState) (a b : Option String),
      (∀ s ∈ st'.cypher, relBothReal rn s = true) → a ∈ rn → b ∈ rn →
      ∀ s ∈ (add_edge rel fid gt dir gid st' a b).cypher, relBothReal rn s = true :=
    fun rel fid gt dir gid st' a b h' ha hb =>
      add_edge_pres _ rel fid gt dir gid st' a b h' (by simp [relBothReal, ha, hb])
  have hfoldT : ∀ (rel : String) (fid : Option String) (gt dir gid : String)
      (a : Option String) (ts : List (Option String)) (st' : EmitState),
      (∀ s ∈ st'.cypher, relBothReal rn s = true) → a ∈ rn → (∀ t ∈ ts, t ∈ rn) →
      ∀ s ∈ (ts.foldl (fun st t => add_edge rel fid gt dir gid st a t) st').cypher,
        relBothReal rn s = true := by
    intro rel fid gt dir gid a ts st' h' ha hts
    exact foldl_pres (fun st : EmitState => ∀ s ∈ st.cypher, relBothReal rn s = true)
      _ ts st' h' (fun st'' t ht hinv => haddB rel fid gt dir gid st'' a t hinv ha (hts t ht))
  have hfoldS : ∀ (rel : String) (fid : Option String) (gt dir gid : String)
      (b : Option String) (ss : List (Option String)) (st' : EmitState),
      (∀ s ∈ st'.cypher, relBothReal rn s = true) → (∀ a ∈ ss, a ∈ rn) → b ∈ rn →
      ∀ s ∈ (ss.foldl (fun st a => add_edge rel fid gt dir gid st a b) st').cypher,
        relBothReal rn s = true := by
    intro rel fid gt dir gid b ss st' h' hss hb
    exact foldl_pres (fun st : EmitState => ∀ s ∈ st.cypher, relBothReal rn s = true)
      _ ss st' h' (fun st'' a ha hinv => haddB rel fid gt dir gid st'' a b hinv (hss a ha) hb)
  simp only [emitFlow]
  split_ifs with h1 h2 h3 h4 h5 h6 h7 h8 h9
  · obtain ⟨k, hk⟩ := flowLabel_eventbased gm gwdirs flow h1
    exact absurd rfl (hEB (k, "eventbasedgateway") hk)
  · obtain ⟨k, hk⟩ := flowLabel_eventbased gm gwdirs flow h1
    exact absurd rfl (hEB (k, "eventbasedgateway") hk)
  · exact hfoldT _ _ _ _ _ _ _ _ h h3.1 (fun t ht => find_real_targets_sub out rn fuel _ _ t ht)
  · exact h
  · exact hfoldT _ _ _ _ _ _ _ _ h h3.1 (fun t ht => find_real_targets_sub out rn fuel _ _ t ht)
  · exact hfoldS _ _ _ _ _ _ _ _ h (fun a ha => find_real_sources_sub inc rn fuel _ _ a ha) h6.2
  · exact h
  · exact hfoldS _ _ _ _ _ _ _ _ h (fun a ha => find_real_sources_sub inc rn fuel _ _ a ha) h6.2
  · exact foldl_pres (fun st : EmitState => ∀ s ∈ st.cypher, relBothReal rn s = true)
      _ _ _ h (fun st'' a ha hinv =>
        hfoldT _ _ _ _ _ a _ st'' hinv (find_real_sources_sub inc rn fuel _ _ a ha)
          (fun t ht => find_real_targets_sub out rn fuel _ _ t ht))
  · have hsrc : flow.source ∈ rn := by tauto
    have htgt : flow.target ∈ rn := by tauto
    exact haddB _ _ _ _ _ _ _ _ h hsrc htgt

/-- The invisible-task emission fold appends the `CREATE` statements
and the invisible ids. -/
theorem invisibleStep_foldl (pid : Option String) :
    ∀ (invs : List InvTask) (stmts : List EdgeStmt) (real : List (Option String)),
      invs.foldl (invisibleStep pid) (stmts, real) =
        (stmts ++ invs.map (fun inv => EdgeStmt.createInvisible inv.id inv.name inv.type
           inv.pool_id inv.lane_id inv.pool_name inv.lane_name pid),
         real ++ invs.map (fun inv => some inv.id)) := by
  intro invs
  induction invs with
  | nil => intro stmts real; simp
  | cons i t ih =>
      intro stmts real
      rw [List.foldl_cons]
      show t.foldl (invisibleStep pid)
        (stmts ++ [EdgeStmt.createInvisible i.id i.name i.type i.pool_id i.lane_id
           i.pool_name i.lane_name pid], real ++ [some i.id]) = _
      rw [ih]
      simp

/-- C1 (amended): every edge statement emitted by `generate_edges` has
its target in the real-nodes set, and when the input contains no
event-based gateway both endpoints of every emitted edge are real; the
dedicated event-based-gateway branch is the exception, since it emits
edges whose source is the flow's raw source (possibly the event-based
gateway itself). -/
theorem generate_edges_real_endpoints (els : EdgeElements) (pid : Option String)
    (fresh : Nat → String) :
    (∀ s ∈ generate_edges els pid fresh, relTargetReal (realNodesOf els fresh) s = true) ∧
    ((∀ kv ∈ build_gateway_map els, kv.2 ≠ "eventbasedgateway") →
      ∀ s ∈ generate_edges els pid fresh, relBothReal (realNodesOf els fresh) s = true) := by
  have hsplit := invisibleStep_foldl pid
    ((splitGatewayFlows (build_gateway_map els) (els.flows ++ els.message_flows) fresh).1) []
    (els.activities.map (·.id) ++ els.events.map (·.id))
  have hrn : (els.activities.map (·.id) ++ els.events.map (·.id)) ++
      ((splitGatewayFlows (build_gateway_map els) (els.flows ++ els.message_flows) fresh).1).map
        (fun inv => some inv.id) = realNodesOf els fresh := by
    simp only [realNodesOf, List.append_assoc]
  constructor
  · simp only [generate_edges, hsplit]
    rw [hrn]
    refine foldl_pres
      (fun st : EmitState => ∀ s ∈ st.cypher, relTargetReal (realNodesOf els fresh) s = true)
      _ _ _ ?_ ?_
    · intro s' hs'
      rw [List.nil_append] at hs'
      obtain ⟨inv, -, rfl⟩ := List.mem_map.mp hs'
      rfl
    · exact fun st' fl _ hinv => emitFlow_pres_target _ _ _ _ _ _ _ st' fl hinv
  · intro hEB
    simp only [generate_edges, hsplit]
    rw [hrn]
    refine foldl_pres
      (fun st : EmitState => ∀ s ∈ st.cypher, relBothReal (realNodesOf els fresh) s = true)
      _ _ _ ?_ ?_
    · intro s' hs'
      rw [List.nil_append] at hs'
      obtain ⟨inv, -, rfl⟩ := List.mem_map.mp hs'
      rfl
    · exact fun st' fl _ hinv => emitFlow_pres_both _ _ _ _ _ _ _ st' fl hEB hinv

/-- Witness for `generate_edges_real_endpoints` on `exC2`, whose
gateway map contains no event-based gateway. -/
theorem generate_edges_real_endpoints_witness :
    (∀ s ∈ generate_edges exC2 (some "p") (fun n => String.mk (List.replicate n 'a')),
        relTargetReal (realNodesOf exC2 (fun n => String.mk (List.replicate n 'a'))) s = true) ∧
    (∀ s ∈ generate_edges exC2 (some "p") (fun n => String.mk (List.replicate n 'a')),
        relBothReal (realNodesOf exC2 (fun n => String.mk (List.replicate n 'a'))) s = true) :=
  ⟨(generate_edges_real_endpoints exC2 (some "p") (fun n => String.mk (List.replicate n 'a'))).1,
   (generate_edges_real_endpoints exC2 (some "p") (fun n => String.mk (List.replicate n 'a'))).2
     (by decide)⟩

/-! ### Kahn's algorithm: bridge lemmas -/

/-- Lookup after assignment. -/
theorem alGetD_alSet {α β : Type} [DecidableEq α] (m : List (α × β)) (k : α) (v : β)
    (k' : α) (d : β) :
    alGetD (alSet m k v) k' d = if k = k' then v else alGetD m k' d := by
  induction m with
  | nil => by_cases h : k = k' <;> simp [alSet, alGetD, h]
  | cons p t ih =>
      obtain ⟨a, b⟩ := p
      by_cases hak : a = k
      · subst hak
        by_cases h : a = k' <;> simp [alSet, alGetD, h]
      · by_cases h : a = k'
        · subst h
          have : ¬ k = a := fun hh => hak hh.symm
          simp [alSet, alGetD, hak, this]
        · simp [alSet, alGetD, hak, h, ih]

/-- Lookup after a push on a dict of lists. -/
theorem alGetD_alPush {α β : Type} [DecidableEq α] (m : List (α × List β)) (k : α) (x : β)
    (k' : α) :
    alGetD (alPush m k x) k' [] =
      if k = k' then alGetD m k' [] ++ [x] else alGetD m k' [] := by
  induction m with
  | nil => by_cases h : k = k' <;> simp [alPush, alGetD, h]
  | cons p t ih =>
      obtain ⟨a, b⟩ := p
      by_cases hak : a = k
      · subst hak
        by_cases h : a = k' <;> simp [alPush, alGetD, h]
      · by_cases h : a = k'
        · subst h
          have : ¬ k = a := fun hh => hak hh.symm
          simp [alPush, alGetD, hak, this]
        · simp [alPush, alGetD, hak, h, ih]

/-- Positive-entry count of a cons cell. -/
theorem posCount_cons (a : String) (b : Int) (t : List (String × Int)) :
    posCount ((a, b) :: t) = (if 0 < b then 1 else 0) + posCount t := by
  simp only [posCount, List.countP_cons, decide_eq_true_eq]
  split_ifs <;> omega

/-- Positive-entry count after assignment, in additive form. -/
theorem posCount_alSet (m : List (String × Int)) (k : String) (v : Int) :
    posCount (alSet m k v) + (if 0 < alGetD m k 0 then 1 else 0) =
      posCount m + (if 0 < v then 1 else 0) := by
  induction m with
  | nil =>
      rw [show alSet [] k v = [(k, v)] from rfl,
        show alGetD ([] : List (String × Int)) k 0 = 0 from rfl, posCount_cons]
      norm_num [posCount]
  | cons p t ih =>
      obtain ⟨a, b⟩ := p
      by_cases hak : a = k
      · subst hak
        have e1 : alSet ((a, b) :: t) a v = (a, v) :: t := by simp [alSet]
        have e2 : alGetD ((a, b) :: t) a 0 = b := by simp [alGetD]
        rw [e1, e2, posCount_cons, posCount_cons]
        split_ifs <;> omega
      · have e1 : alSet ((a, b) :: t) k v = (a, b) :: alSet t k v := by simp [alSet, hak]
        have e2 : alGetD ((a, b) :: t) k 0 = alGetD t k 0 := by simp [alGetD, hak]
        rw [e1, e2, posCount_cons, posCount_cons]
        split_ifs at ih ⊢ <;> omega

/-- Branch equation of `decStep`. -/
theorem decStep_eq (st : List (String × Int) × List String) (t : String) :
    decStep st t =
      if alGetD st.1 t 0 - 1 = 0
      then (alSet st.1 t (alGetD st.1 t 0 - 1), st.2 ++ [t])
      else (alSet st.1 t (alGetD st.1 t 0 - 1), st.2) := by
  simp only [decStep]

/-- One decrement step keeps `posCount + queue length` unchanged. -/
theorem decStep_measure (st : List (String × Int) × List String) (t : String) :
    posCount (decStep st t).1 + (decStep st t).2.length =
      posCount st.1 + st.2.length := by
  have hps := posCount_alSet st.1 t (alGetD st.1 t 0 - 1)
  rw [decStep_eq]
  split_ifs with hv
  · dsimp only
    rw [List.length_append, List.length_singleton]
    split_ifs at hps <;> omega
  · dsimp only
    split_ifs at hps <;> omega

/-- The inner decrement fold keeps `posCount + queue length`
unchanged. -/
theorem decFold_measure (ns : List String) :
    ∀ (st : List (String × Int) × List String),
      posCount ((ns.foldl decStep st).1) + ((ns.foldl decStep st).2).length =
        posCount st.1 + st.2.length := by
  induction ns with
  | nil => intro st; simp
  | cons t rest ih =>
      intro st
      rw [List.foldl_cons, ih, decStep_measure]

/-- Indegree table after the decrement fold. -/
theorem decFold_ind (ns : List String) :
    ∀ (ind : List (String × Int)) (q : List String) (v : String),
      alGetD ((ns.foldl decStep (ind, q)).1) v 0 = alGetD ind v 0 - (ns.count v : Int) := by
  induction ns with
  | nil => intro ind q v; simp
  | cons t rest ih =>
      intro ind q v
      rw [List.foldl_cons, decStep_eq]
      split_ifs with hv <;>
      · rw [ih, alGetD_alSet, List.count_cons]
        simp only [beq_iff_eq]
        by_cases h : t = v
        · subst h
          rw [if_pos rfl, if_pos rfl]
          push_cast
          ring
        · rw [if_neg h, if_neg h]
          push_cast
          ring

/-- Queue contents after the decrement fold: a node is appended exactly
when its entry goes from positive to zero or below within the fold. -/
theorem decFold_queue (ns : List String) :
    ∀ (ind : List (String × Int)) (q : List String) (v : String),
      ((ns.foldl decStep (ind, q)).2).count v =
        q.count v +
          (if 0 < alGetD ind v 0 ∧ alGetD ind v 0 ≤ (ns.count v : Int) then 1 else 0) := by
  induction ns with
  | nil =>
      intro ind q v
      simp only [List.foldl_nil, List.count_nil, Nat.cast_zero]
      have hne : ¬ (0 < alGetD ind v 0 ∧ alGetD ind v 0 ≤ (0 : Int)) := by omega
      rw [if_neg hne]
      omega
  | cons t rest ih =>
      intro ind q v
      rw [List.foldl_cons, decStep_eq]
      dsimp only
      by_cases h : t = v
      · subst h
        have hcc : List.count t (t :: rest) = List.count t rest + 1 := by simp
        have hq : List.count t (q ++ [t]) = List.count t q + 1 := by simp
        split_ifs with hv hcond hcond <;>
          (rw [ih, alGetD_alSet]; simp only [if_pos rfl]; split_ifs <;> omega)
      · have hvt : v ≠ t := fun hh => h hh.symm
        have hcc : List.count v (t :: rest) = List.count v rest := by simp [hvt]
        have hq : List.count v (q ++ [t]) = List.count v q := by simp [hvt]
        split_ifs with hv hcond hcond <;>
          (rw [ih, alGetD_alSet]; simp only [if_neg h]; split_ifs <;> omega)
/-- Adjacency lists built by the `cycleGraph` fold. -/
theorem cycleGraph_getD (es : List (String × String)) :
    ∀ (m0 : List (String × List String)) (c : String),
      alGetD (es.foldl (fun g e => alPush g e.1 e.2) m0) c [] =
        alGetD m0 c [] ++ (es.filter (fun e => decide (e.1 = c))).map (·.2) := by
  induction es with
  | nil => intro m0 c; simp
  | cons e t ih =>
      intro m0 c
      rw [List.foldl_cons, ih, alGetD_alPush]
      by_cases h : e.1 = c
      · rw [if_pos h, List.filter_cons_of_pos (by simpa using h), List.map_cons,
          List.append_assoc]
        simp
      · rw [if_neg h, List.filter_cons_of_neg (by simpa using h)]

/-- Neighbor multiplicities of the adjacency dict agree with the edge
counts. -/
theorem cycleGraph_count (es : List (String × String)) (c v : String) :
    (alGetD (cycleGraph es) c []).count v = edgesFromC es c v := by
  unfold cycleGraph
  rw [cycleGraph_getD es [] c]
  rw [show alGetD ([] : List (String × List String)) c [] = [] from rfl, List.nil_append]
  rw [List.count_eq_countP, List.countP_map, List.countP_filter]
  unfold edgesFromC
  apply List.countP_congr
  intro e _
  simp [Function.comp_apply, Bool.and_eq_true, beq_iff_eq, and_comm]

/-- The indegree dict agrees with the indegree count. -/
theorem cycleIndegree_getD (es : List (String × String)) :
    ∀ (m0 : List (String × Int)) (v : String),
      alGetD (es.foldl (fun m e => alSet m e.2 (alGetD m e.2 0 + 1)) m0) v 0 =
        alGetD m0 v 0 + (es.countP (fun e => decide (e.2 = v)) : Int) := by
  induction es with
  | nil => intro m0 v; simp
  | cons e t ih =>
      intro m0 v
      rw [List.foldl_cons, ih, alGetD_alSet, List.countP_cons]
      by_cases h : e.2 = v
      · rw [if_pos h]
        have hd : (if (decide (e.2 = v)) = true then 1 else 0) = 1 := by simp [h]
        rw [hd, h]
        push_cast
        ring
      · rw [if_neg h]
        have hd : (if (decide (e.2 = v)) = true then 1 else 0) = 0 := by simp [h]
        rw [hd]
        push_cast
        ring

/-- Lookup in the initial indegree table. -/
theorem cycleIndegree_spec (es : List (String × String)) (v : String) :
    alGetD (cycleIndegree es) v 0 = (indeg0 es v : Int) := by
  unfold cycleIndegree indeg0
  rw [cycleIndegree_getD es [] v]
  simp [alGetD]

/-- Membership through one step of the node-collection fold. -/
theorem cycleNodes_stepMem (e : String × String) (ns : List String) (x : String) :
    x ∈ (let ns1 := if e.1 ∈ ns then ns else ns ++ [e.1]
         if e.2 ∈ ns1 then ns1 else ns1 ++ [e.2]) ↔
      x ∈ ns ∨ x = e.1 ∨ x = e.2 := by
  dsimp only
  split_ifs with h1 h2 h2
  · constructor
    · exact Or.inl
    · rintro (h | h | h)
      exacts [h, h ▸ h1, h ▸ h2]
  · rw [List.mem_append, List.mem_singleton]
    constructor
    · rintro (h | h)
      exacts [Or.inl h, Or.inr (Or.inr h)]
    · rintro (h | h | h)
      exacts [Or.inl h, Or.inl (h ▸ h1), Or.inr h]
  · rw [List.mem_append, List.mem_singleton]
    constructor
    · rintro (h | h)
      exacts [Or.inl h, Or.inr (Or.inl h)]
    · rintro (h | h | h)
      · exact Or.inl h
      · exact Or.inr h
      · rcases List.mem_append.mp h2 with hh | hh
        · exact Or.inl (h ▸ hh)
        · exact Or.inr (h ▸ List.mem_singleton.mp hh)
  · simp only [List.mem_append, List.mem_singleton]
    tauto

/-- Membership in the node set built by `cycleNodes`. -/
theorem cycleNodes_mem (es : List (String × String)) :
    ∀ (m0 : List String) (x : String),
      x ∈ es.foldl (fun ns e =>
        let ns := if e.1 ∈ ns then ns else ns ++ [e.1]
        if e.2 ∈ ns then ns else ns ++ [e.2]) m0 ↔
      x ∈ m0 ∨ ∃ e ∈ es, e.1 = x ∨ e.2 = x := by
  induction es with
  | nil => intro m0 x; simp
  | cons e t ih =>
      intro m0 x
      rw [List.foldl_cons, ih]
      dsimp only
      rw [cycleNodes_stepMem]
      constructor
      · rintro ((h | h | h) | ⟨e', he', hx⟩)
        · exact Or.inl h
        · exact Or.inr ⟨e, List.mem_cons_self _ _, Or.inl h.symm⟩
        · exact Or.inr ⟨e, List.mem_cons_self _ _, Or.inr h.symm⟩
        · exact Or.inr ⟨e', List.mem_cons_of_mem _ he', hx⟩
      · rintro (h | ⟨e', he', hx⟩)
        · exact Or.inl (Or.inl h)
        · rcases List.mem_cons.mp he' with heq | hmem
          · subst heq
            rcases hx with h | h
            · exact Or.inl (Or.inr (Or.inl h.symm))
            · exact Or.inl (Or.inr (Or.inr h.symm))
          · exact Or.inr ⟨e', hmem, hx⟩

/-- Node-set membership characterization. -/
theorem cycleNodes_spec (es : List (String × String)) (x : String) :
    x ∈ cycleNodes es ↔ ∃ e ∈ es, e.1 = x ∨ e.2 = x := by
  unfold cycleNodes
  rw [cycleNodes_mem es [] x]
  simp

/-- The node list is duplicate-free. -/
theorem cycleNodes_nodup (es : List (String × String)) : (cycleNodes es).Nodup := by
  have hgen : ∀ (l : List (String × String)) (m0 : List String), m0.Nodup →
      (l.foldl (fun ns e =>
        let ns := if e.1 ∈ ns then ns else ns ++ [e.1]
        if e.2 ∈ ns then ns else ns ++ [e.2]) m0).Nodup := by
    intro l
    induction l with
    | nil => intro m0 h; simpa using h
    | cons e t ih =>
        intro m0 h
        rw [List.foldl_cons]
        apply ih
        dsimp only
        split_ifs with h1 h2 h2 <;>
          simp_all [List.nodup_append, List.disjoint_singleton] <;>
          (intro hh; exact h2.2 hh.symm)
  exact hgen es [] List.nodup_nil

/-- Counting entries satisfying a conjunction is bounded by the first
conjunct's count, with equality exactly when the second conjunct holds
on every element satisfying the first. -/
theorem countP_and_eq_iff {α : Type} (l : List α) (p q : α → Bool) :
    l.countP (fun x => p x && q x) = l.countP p ↔
      ∀ x ∈ l, p x = true → q x = true := by
  induction l with
  | nil => simp
  | cons a t ih =>
      rw [List.countP_cons, List.countP_cons]
      have hle : t.countP (fun x => p x && q x) ≤ t.countP p :=
        List.countP_mono_left (fun x _ hx => by
          simp only [Bool.and_eq_true] at hx
          exact hx.1)
      constructor
      · intro h x hx hpx
        rcases List.mem_cons.mp hx with heq | hmem
        · subst heq
          by_cases hq : q x = true
          · exact hq
          · exfalso
            have hq' : q x = false := by simpa using hq
            by_cases hp : p x = true
            · simp [hp, hq'] at h
              omega
            · have hp' : p x = false := by simpa using hp
              exact absurd hp' (by simp [hpx])
        · by_cases hp : p a = true
          · by_cases hq : q a = true
            · simp [hp, hq] at h
              exact (ih.mp (by omega)) x hmem hpx
            · have hq' : q a = false := by simpa using hq
              simp [hp, hq'] at h
              omega
          · have hp' : p a = false := by simpa using hp
            simp [hp'] at h
            exact (ih.mp h) x hmem hpx
      · intro h
        by_cases hp : p a = true
        · have hq := h a (List.mem_cons_self _ _) hp
          simp [hp, hq]
          exact ih.mpr (fun x hx hpx => h x (List.mem_cons_of_mem _ hx) hpx)
        · have hp' : p a = false := by simpa using hp
          simp [hp']
          exact ih.mpr (fun x hx hpx => h x (List.mem_cons_of_mem _ hx) hpx)

/-- No edge lands in a node from sources inside the empty set. -/
theorem outFrom_nil (es : List (String × String)) (v : String) :
    outFrom es [] v = 0 := by
  unfold outFrom
  simp

/-- Edges from a subset into `v` are at most all edges into `v`. -/
theorem outFrom_le (es : List (String × String)) (S : List String) (v : String) :
    outFrom es S v ≤ indeg0 es v := by
  unfold outFrom indeg0
  exact List.countP_mono_left (fun x _ hx => by
    simp only [Bool.and_eq_true] at hx
    exact hx.1)

/-- Splitting off a fresh element of the source set. -/
theorem outFrom_append_single (es : List (String × String)) (done : List String)
    (c : String) (v : String) (hc : c ∉ done) :
    outFrom es (done ++ [c]) v = outFrom es done v + edgesFromC es c v := by
  unfold outFrom edgesFromC
  induction es with
  | nil => simp
  | cons e t ih =>
      rw [List.countP_cons, List.countP_cons, List.countP_cons, ih]
      by_cases h2 : e.2 = v
      · by_cases h1 : e.1 ∈ done
        · have h1c : e.1 ∈ done ++ [c] := List.mem_append_left _ h1
          have h1ne : ¬ e.1 = c := fun hh => hc (hh ▸ h1)
          simp [h2, h1, h1c, h1ne]
          omega
        · by_cases h1c : e.1 = c
          · have hmem : e.1 ∈ done ++ [c] := List.mem_append_right _ (by simp [h1c])
            simp [h2, h1, h1c, hmem, hc]
            omega
          · have hnm : e.1 ∉ done ++ [c] := by
              intro hmm
              rcases List.mem_append.mp hmm with hh | hh
              · exact h1 hh
              · exact h1c (List.mem_singleton.mp hh)
            simp [h2, h1, h1c, hnm]
      · simp [h2]

/-- When a node's processed in-edges exhaust its indegree, every
in-edge source was processed. -/
theorem outFrom_eq_indeg0_iff (es : List (String × String)) (done : List String)
    (v : String) :
    outFrom es done v = indeg0 es v ↔ ∀ e ∈ es, e.2 = v → e.1 ∈ done := by
  unfold outFrom indeg0
  rw [countP_and_eq_iff]
  constructor
  · intro h e he h2
    simpa using h e he (by simpa using h2)
  · intro h e he h2
    simpa using h e he (by simpa using h2)

/-- One iteration of the Kahn drain loop preserves the invariant: the
head `c` of the queue is popped into `done` and its outgoing edges are
processed by the decrement fold. -/
theorem kahnInv_step (es : List (String × String)) (c : String) (q' : List String)
    (ind : List (String × Int)) (done : List String)
    (hinv : KahnInv es (c :: q') ind done) :
    KahnInv es ((alGetD (cycleGraph es) c []).foldl decStep (ind, q')).2
      ((alGetD (cycleGraph es) c []).foldl decStep (ind, q')).1 (done ++ [c]) := by
  set R := (alGetD (cycleGraph es) c []).foldl decStep (ind, q') with hR
  have hind : ∀ v, alGetD R.1 v 0 = alGetD ind v 0 - (edgesFromC es c v : Int) := by
    intro v
    rw [hR, decFold_ind, cycleGraph_count]
  have hq : ∀ v, (R.2).count v = q'.count v +
      (if 0 < alGetD ind v 0 ∧ alGetD ind v 0 ≤ (edgesFromC es c v : Int)
       then 1 else 0) := by
    intro v
    rw [hR, decFold_queue, cycleGraph_count]
  have hcdone : c ∉ done := by
    have h := List.nodup_iff_count_le_one.mp hinv.nodup c
    rw [List.count_append, List.count_cons_self] at h
    intro hc
    have := List.count_pos_iff.mpr hc
    omega
  have houtF : ∀ v, outFrom es (done ++ [c]) v = outFrom es done v + edgesFromC es c v :=
    fun v => outFrom_append_single es done c v hcdone
  have hnotin : ∀ v, 0 < alGetD ind v 0 → v ∉ done ∧ v ≠ c ∧ v ∉ q' := by
    intro v hv
    refine ⟨fun hd => ?_, fun hc2 => ?_, fun hq2 => ?_⟩
    · have := hinv.nonpos_seen v (List.mem_append_left _ hd)
      omega
    · have := hinv.nonpos_seen v (List.mem_append_right _ (by simp [hc2]))
      omega
    · have := hinv.nonpos_seen v (List.mem_append_right _ (List.mem_cons_of_mem _ hq2))
      omega
  have hmemr : ∀ v, v ∈ R.2 ↔
      (v ∈ q' ∨ (0 < alGetD ind v 0 ∧ alGetD ind v 0 ≤ (edgesFromC es c v : Int))) := by
    intro v
    rw [← List.count_pos_iff, hq v, ← List.count_pos_iff]
    by_cases hd : 0 < alGetD ind v 0 ∧ alGetD ind v 0 ≤ (edgesFromC es c v : Int)
    · rw [if_pos hd]
      constructor
      · intro _
        exact Or.inr hd
      · intro _
        omega
    · rw [if_neg hd]
      constructor
      · intro h
        exact Or.inl (by omega)
      · rintro (h | h)
        · omega
        · exact absurd h hd
  refine ⟨?_, ?_, ?_, ?_, ?_, ?_, ?_⟩
  · intro v
    rw [hind v, hinv.ind_spec v, houtF v]
    push_cast
    ring
  · rw [List.nodup_iff_count_le_one]
    intro a
    have h1 := List.nodup_iff_count_le_one.mp hinv.nodup a
    rw [List.count_append] at h1
    rw [List.count_append, List.count_append, hq a]
    by_cases hda : 0 < alGetD ind a 0 ∧ alGetD ind a 0 ≤ (edgesFromC es c a : Int)
    · obtain ⟨hnd1, hnc1, hnq1⟩ := hnotin a hda.1
      have e1 : List.count a done = 0 := List.count_eq_zero_of_not_mem hnd1
      have e2 : List.count a q' = 0 := List.count_eq_zero_of_not_mem hnq1
      have e3 : List.count a [c] = 0 := List.count_eq_zero_of_not_mem (by simp [hnc1])
      rw [if_pos hda, e1, e2, e3]
    · rw [if_neg hda]
      by_cases hac : a = c
      · subst hac
        rw [List.count_cons_self] at h1
        have e3 : List.count a [a] = 1 := by simp
        rw [e3]
        omega
      · have e3 : List.count a [c] = 0 := by simp [hac]
        have e5 : List.count a (c :: q') = List.count a q' := by
          simp [List.count_cons, hac]
        rw [e5] at h1
        rw [e3]
        omega
  · intro v hv
    rcases List.mem_append.mp hv with hvd | hvr
    · rcases List.mem_append.mp hvd with h | h
      · exact hinv.mem_nodes v (List.mem_append_left _ h)
      · have hvc : v = c := List.mem_singleton.mp h
        exact hinv.mem_nodes v (List.mem_append_right _ (by simp [hvc]))
    · rcases (hmemr v).mp hvr with h | h
      · exact hinv.mem_nodes v (List.mem_append_right _ (List.mem_cons_of_mem _ h))
      · have hpos : 0 < edgesFromC es c v := by
          have h2 : (0 : Int) < (edgesFromC es c v : Int) := lt_of_lt_of_le h.1 h.2
          exact_mod_cast h2
        obtain ⟨e, he, hpe⟩ := List.countP_pos_iff.mp hpos
        simp only [Bool.and_eq_true, decide_eq_true_eq] at hpe
        exact (cycleNodes_spec es v).mpr ⟨e, he, Or.inr hpe.2⟩
  · intro v hvn hvd hvq
    have h1 : v ∉ done := fun h => hvd (List.mem_append_left _ h)
    have h2 : v ≠ c := fun h => hvd (List.mem_append_right _ (by simp [h]))
    have h3 : v ∉ q' := fun h => hvq ((hmemr v).mpr (Or.inl h))
    have h4 : v ∉ c :: q' := by
      intro h
      rcases List.mem_cons.mp h with h | h
      · exact h2 h
      · exact h3 h
    have hold := hinv.pos_unseen v hvn h1 h4
    have h5 : ¬ (alGetD ind v 0 ≤ (edgesFromC es c v : Int)) := fun h =>
      hvq ((hmemr v).mpr (Or.inr ⟨hold, h⟩))
    rw [hind v]
    omega
  · intro v hv
    rw [hind v]
    have hnn : (0 : Int) ≤ (edgesFromC es c v : Int) := Int.natCast_nonneg _
    rcases List.mem_append.mp hv with hvd | hvr
    · rcases List.mem_append.mp hvd with h | h
      · have := hinv.nonpos_seen v (List.mem_append_left _ h)
        omega
      · have hvc : v = c := List.mem_singleton.mp h
        have := hinv.nonpos_seen v (List.mem_append_right _ (by simp [hvc]))
        omega
    · rcases (hmemr v).mp hvr with h | h
      · have := hinv.nonpos_seen v (List.mem_append_right _ (List.mem_cons_of_mem _ h))
        omega
      · obtain ⟨ha, hb⟩ := h
        omega
  · intro v hvr e he h2
    rcases (hmemr v).mp hvr with h | h
    · exact List.mem_append_left _ (hinv.q_srcs_done v (List.mem_cons_of_mem _ h) e he h2)
    · have hspec := hinv.ind_spec v
      have hle2 : (indeg0 es v : Int) - (outFrom es done v : Int) ≤ (edgesFromC es c v : Int) := by
        rw [← hspec]
        exact h.2
      have hout := houtF v
      have hle3 : outFrom es (done ++ [c]) v ≤ indeg0 es v := outFrom_le es _ v
      have heq : outFrom es (done ++ [c]) v = indeg0 es v := by omega
      exact (outFrom_eq_indeg0_iff es (done ++ [c]) v).mp heq e he h2
  · intro i hi e he h2
    by_cases hlt : i < done.length
    · have hget : (done ++ [c]).get ⟨i, hi⟩ = done.get ⟨i, hlt⟩ := by
        rw [List.get_eq_getElem, List.get_eq_getElem, List.getElem_append_left]
      rw [hget] at h2
      have htopo := hinv.topo i hlt e he h2
      have htake : (done ++ [c]).take i = done.take i :=
        List.take_append_of_le_length (le_of_lt hlt)
      rw [htake]
      exact htopo
    · have hlen2 : (done ++ [c]).length = done.length + 1 := by simp
      have hieq : i = done.length := by omega
      subst hieq
      have hget : (done ++ [c]).get ⟨done.length, hi⟩ = c := by
        rw [List.get_eq_getElem]
        exact List.getElem_concat_length done c done.length rfl hi
      rw [hget] at h2
      have hsrc := hinv.q_srcs_done c (List.mem_cons_self c q') e he h2
      have htake : (done ++ [c]).take done.length = done := by
        rw [List.take_append_of_le_length (le_refl _), List.take_length]
      rw [htake]
      exact hsrc

/-- The initial state of `detect_cycle` satisfies the drain-loop
invariant. -/
theorem kahnInv_init (es : List (String × String)) :
    KahnInv es
      ((cycleNodes es).filter (fun n => decide (alGetD (cycleIndegree es) n 0 = 0)))
      (cycleIndegree es) [] := by
  refine ⟨?_, ?_, ?_, ?_, ?_, ?_, ?_⟩
  · intro v
    rw [cycleIndegree_spec, outFrom_nil]
    push_cast
    ring
  · rw [List.nil_append]
    exact (cycleNodes_nodup es).filter _
  · intro v hv
    rw [List.nil_append] at hv
    exact List.mem_of_mem_filter hv
  · intro v hvn _ hvq
    have hne : ¬ (alGetD (cycleIndegree es) v 0 = 0) := by
      intro h0
      exact hvq (List.mem_filter.mpr ⟨hvn, by simp [h0]⟩)
    rw [cycleIndegree_spec] at hne ⊢
    have hge : (0 : Int) ≤ (indeg0 es v : Int) := Int.natCast_nonneg _
    omega
  · intro v hv
    rw [List.nil_append] at hv
    have h := (List.mem_filter.mp hv).2
    simp only [decide_eq_true_eq] at h
    exact le_of_eq h
  · intro v hv e he h2
    have h := (List.mem_filter.mp hv).2
    simp only [decide_eq_true_eq] at h
    rw [cycleIndegree_spec] at h
    have hz : indeg0 es v = 0 := by exact_mod_cast h
    have hz2 : es.countP (fun e => decide (e.2 = v)) = 0 := hz
    have hnp := List.countP_eq_zero.mp hz2 e he
    exact absurd (by simp [h2]) hnp
  · intro i hi
    exact absurd hi (by simp)

/-- Running the drain loop with exactly-sufficient fuel ends with an
empty queue and an invariant-satisfying final state. -/
theorem kahnLoop_final (es : List (String × String)) :
    ∀ (fuel : Nat) (q : List String) (ind : List (String × Int)) (done : List String),
      KahnInv es q ind done →
      fuel = posCount ind + q.length →
      ∃ ind', KahnInv es [] ind' (kahnLoop (cycleGraph es) fuel q ind done) := by
  intro fuel
  induction fuel with
  | zero =>
      intro q ind done hinv hf
      cases q with
      | nil => exact ⟨ind, hinv⟩
      | cons c q' =>
          exfalso
          rw [List.length_cons] at hf
          omega
  | succ n ih =>
      intro q ind done hinv hf
      cases q with
      | nil => exact ⟨ind, hinv⟩
      | cons c q' =>
          have hstep := kahnInv_step es c q' ind done hinv
          have hkl : kahnLoop (cycleGraph es) (n + 1) (c :: q') ind done =
              kahnLoop (cycleGraph es) n
                ((alGetD (cycleGraph es) c []).foldl decStep (ind, q')).2
                ((alGetD (cycleGraph es) c []).foldl decStep (ind, q')).1
                (done ++ [c]) := rfl
          rw [hkl]
          apply ih _ _ _ hstep
          have hm := decFold_measure (alGetD (cycleGraph es) c []) (ind, q')
          dsimp only at hm
          rw [List.length_cons] at hf
          omega

/-- An element of a list prefix has index below the prefix length. -/
theorem indexOf_lt_of_mem_take (l : List String) (a : String) :
    ∀ (i : Nat), a ∈ l.take i → l.indexOf a < i := by
  induction l with
  | nil =>
      intro i h
      simp at h
  | cons x t ih =>
      intro i h
      cases i with
      | zero => simp at h
      | succ n =>
          rw [List.take_succ_cons] at h
          by_cases hax : a = x
          · subst hax
            rw [List.indexOf_cons_self]
            omega
          · have hat : a ∈ t.take n := by
              rcases List.mem_cons.mp h with he | ht
              · exact absurd he hax
              · exact ht
            have hne : x ≠ a := fun hh => hax hh.symm
            rw [List.indexOf_cons_ne _ hne]
            have := ih n hat
            omega

/-- A completed drain (all nodes popped) certifies acyclicity: `done`
is a topological order of the whole graph. -/
theorem no_cycle_of_complete (es : List (String × String)) (ind : List (String × Int))
    (doneF : List String) (hinv : KahnInv es [] ind doneF)
    (hlen : doneF.length = (cycleNodes es).length) : ¬ hasCycle es := by
  have hsub : ∀ v ∈ doneF, v ∈ cycleNodes es := fun v hv =>
    hinv.mem_nodes v (List.mem_append_left _ hv)
  have hnd : doneF.Nodup := by
    have := hinv.nodup
    simpa using this
  have hall : ∀ v ∈ cycleNodes es, v ∈ doneF := by
    have hsp : List.Subperm doneF (cycleNodes es) := List.subperm_of_subset hnd hsub
    have hperm : doneF.Perm (cycleNodes es) := hsp.perm_of_length_le (le_of_eq hlen.symm)
    intro v hv
    exact hperm.mem_iff.mpr hv
  have hstep : ∀ a b, edgeRel es a b → doneF.indexOf a < doneF.indexOf b := by
    intro a b hab
    unfold edgeRel at hab
    have hbn : b ∈ cycleNodes es := (cycleNodes_spec es b).mpr ⟨(a, b), hab, Or.inr rfl⟩
    have hbd : b ∈ doneF := hall b hbn
    have hi : doneF.indexOf b < doneF.length := List.indexOf_lt_length.mpr hbd
    have hget : doneF.get ⟨doneF.indexOf b, hi⟩ = b := List.indexOf_get hi
    have htopo := hinv.topo (doneF.indexOf b) hi (a, b) hab hget.symm
    exact indexOf_lt_of_mem_take doneF a (doneF.indexOf b) htopo
  intro hcy
  unfold hasCycle at hcy
  obtain ⟨v, hcyc⟩ := hcy
  have htrans : ∀ a b, Relation.TransGen (edgeRel es) a b →
      doneF.indexOf a < doneF.indexOf b := by
    intro a b h
    induction h with
    | single hr => exact hstep _ _ hr
    | tail _ hr ih => exact lt_trans ih (hstep _ _ hr)
  exact absurd (htrans v v hcyc) (lt_irrefl _)

/-- A predicate closed under taking in-edge predecessors and confined
to a finite node list yields a cycle. -/
theorem exists_cycle_of_descent (es : List (String × String)) (P : String → Prop)
    (bound : List String)
    (hfin : ∀ v, P v → v ∈ bound)
    (hstepP : ∀ v, P v → ∃ u, P u ∧ (u, v) ∈ es)
    (v0 : String) (h0 : P v0) : hasCycle es := by
  classical
  choose nxt hP hE using hstepP
  let T := {v : String // P v}
  let f : T → T := fun x => ⟨nxt x.1 x.2, hP x.1 x.2⟩
  let σ : Nat → T := iterStep ⟨v0, h0⟩ f
  have hσ : ∀ n, ((σ (n + 1)).1, (σ n).1) ∈ es := fun n => hE (σ n).1 (σ n).2
  have hchain : ∀ d n, Relation.TransGen (edgeRel es) ((σ (n + d + 1)).1) ((σ n).1) := by
    intro d
    induction d with
    | zero =>
        intro n
        exact Relation.TransGen.single (hσ n)
    | succ m ih =>
        intro n
        have he2 : ((σ (n + m + 1 + 1)).1, (σ (n + m + 1)).1) ∈ es := hσ (n + m + 1)
        have hre : n + (m + 1) + 1 = n + m + 1 + 1 := by omega
        rw [hre]
        exact Relation.TransGen.head he2 (ih n)
  have hcard : (bound.toFinset).card <
      (Finset.univ : Finset (Fin (bound.length + 1))).card := by
    have h1 := List.toFinset_card_le bound
    rw [Finset.card_univ, Fintype.card_fin]
    omega
  have hmaps : ∀ i ∈ (Finset.univ : Finset (Fin (bound.length + 1))),
      (σ i.1).1 ∈ bound.toFinset := fun i _ => List.mem_toFinset.mpr (hfin _ (σ i.1).2)
  obtain ⟨i, _, j, _, hij, heq⟩ :=
    Finset.exists_ne_map_eq_of_card_lt_of_maps_to hcard hmaps
  unfold hasCycle
  rcases Nat.lt_or_ge i.1 j.1 with hlt | hge
  · refine ⟨(σ i.1).1, ?_⟩
    have h3 : i.1 + (j.1 - i.1 - 1) + 1 = j.1 := by omega
    have hch := hchain (j.1 - i.1 - 1) i.1
    rw [h3] at hch
    rw [← heq] at hch
    exact hch
  · have hlt2 : j.1 < i.1 := by
      rcases Nat.lt_or_ge j.1 i.1 with h | h
      · exact h
      · exact absurd (Fin.ext (by omega)) hij
    refine ⟨(σ j.1).1, ?_⟩
    have h3 : j.1 + (i.1 - j.1 - 1) + 1 = i.1 := by omega
    have hch := hchain (i.1 - j.1 - 1) j.1
    rw [h3] at hch
    rw [heq] at hch
    exact hch

/-- An incomplete drain (some node never popped) certifies a cycle:
every undrained node keeps positive residual indegree, so it has an
undrained in-neighbor, and the finite node set forces the predecessor
chain to revisit a node. -/
theorem cycle_of_incomplete (es : List (String × String)) (ind : List (String × Int))
    (doneF : List String) (hinv : KahnInv es [] ind doneF)
    (hlen : doneF.length ≠ (cycleNodes es).length) : hasCycle es := by
  have hsub : ∀ v ∈ doneF, v ∈ cycleNodes es := fun v hv =>
    hinv.mem_nodes v (List.mem_append_left _ hv)
  have hnd : doneF.Nodup := by
    have := hinv.nodup
    simpa using this
  have hex : ∃ v, v ∈ cycleNodes es ∧ v ∉ doneF := by
    by_contra hno
    push_neg at hno
    have h1 : List.Subperm (cycleNodes es) doneF :=
      List.subperm_of_subset (cycleNodes_nodup es) (fun v hv => hno v hv)
    have h2 : List.Subperm doneF (cycleNodes es) := List.subperm_of_subset hnd hsub
    have hl1 := h1.length_le
    have hl2 := h2.length_le
    exact hlen (by omega)
  obtain ⟨v0, hv0n, hv0d⟩ := hex
  have hpred : ∀ v, v ∈ cycleNodes es → v ∉ doneF →
      ∃ e ∈ es, e.2 = v ∧ e.1 ∉ doneF ∧ e.1 ∈ cycleNodes es := by
    intro v hvn hvd
    have hpos : 0 < alGetD ind v 0 := hinv.pos_unseen v hvn hvd (by simp)
    rw [hinv.ind_spec v] at hpos
    have hlt : outFrom es doneF v < indeg0 es v := by omega
    have hne : es.countP (fun e => decide (e.2 = v) && decide (e.1 ∈ doneF)) ≠
        es.countP (fun e => decide (e.2 = v)) := by
      have h1 : outFrom es doneF v =
          es.countP (fun e => decide (e.2 = v) && decide (e.1 ∈ doneF)) := rfl
      have h2 : indeg0 es v = es.countP (fun e => decide (e.2 = v)) := rfl
      omega
    have hnall : ¬ (∀ e ∈ es, (decide (e.2 = v)) = true → (decide (e.1 ∈ doneF)) = true) :=
      fun hall => hne ((countP_and_eq_iff es _ _).mpr hall)
    push_neg at hnall
    obtain ⟨e, he, hp, hq⟩ := hnall
    simp only [decide_eq_true_eq] at hp
    have hq' : e.1 ∉ doneF := fun hmem => hq (by simp [hmem])
    exact ⟨e, he, hp, hq', (cycleNodes_spec es e.1).mpr ⟨e, he, Or.inl rfl⟩⟩
  refine exists_cycle_of_descent es (fun v => v ∈ cycleNodes es ∧ v ∉ doneF)
    (cycleNodes es) (fun v hv => hv.1) ?_ v0 ⟨hv0n, hv0d⟩
  intro v hv
  obtain ⟨e, he, h2, h1d, h1n⟩ := hpred v hv.1 hv.2
  subst h2
  exact ⟨e.1, ⟨h1n, h1d⟩, he⟩

/-- Bind of a successful `Except` computation. -/
theorem exceptBind_ok {ε α β : Type} (a : α) (f : α → Except ε β) :
    ((Except.ok a : Except ε α) >>= f) = f a := rfl

/-- **C7.** `detect_cycle` returns `true` exactly when the directed
graph formed by the given flows' `(source, target)` pairs contains a
cycle (Kahn's algorithm: it drains zero-indegree nodes and reports the
leftover); and a detected cycle is only a warning: `validate_schema`
still returns `Except.ok` on every document whenever its schema path is
reachable, regardless of the flows (and hence of the cycle check's
outcome). -/
theorem detect_cycle_iff_hasCycle :
    (∀ flows : List Element, detect_cycle flows = true ↔ hasCycle (edgesOf flows)) ∧
    (∀ (env : SchemaEnv) (data : Doc) (p : String) (hs : Nat) (af : Bool)
      (fresh : Nat → String), env.files p = some hs →
      ∃ d, validate_schema env data (some p) af fresh = Except.ok d) := by
  constructor
  · intro flows
    have hinit := kahnInv_init (edgesOf flows)
    obtain ⟨ind', hfin⟩ := kahnLoop_final (edgesOf flows)
      (posCount (cycleIndegree (edgesOf flows)) +
        ((cycleNodes (edgesOf flows)).filter
          (fun n => decide (alGetD (cycleIndegree (edgesOf flows)) n 0 = 0))).length)
      ((cycleNodes (edgesOf flows)).filter
        (fun n => decide (alGetD (cycleIndegree (edgesOf flows)) n 0 = 0)))
      (cycleIndegree (edgesOf flows)) [] hinit rfl
    have hdc : detect_cycle flows = decide
        ((kahnLoop (cycleGraph (edgesOf flows))
          (posCount (cycleIndegree (edgesOf flows)) +
            ((cycleNodes (edgesOf flows)).filter
              (fun n => decide (alGetD (cycleIndegree (edgesOf flows)) n 0 = 0))).length)
          ((cycleNodes (edgesOf flows)).filter
            (fun n => decide (alGetD (cycleIndegree (edgesOf flows)) n 0 = 0)))
          (cycleIndegree (edgesOf flows)) []).length ≠
          (cycleNodes (edgesOf flows)).length) := rfl
    rw [hdc, decide_eq_true_eq]
    constructor
    · intro hne
      exact cycle_of_incomplete (edgesOf flows) ind' _ hfin hne
    · intro hcy
      by_contra hne
      exact no_cycle_of_complete (edgesOf flows) ind' _ hfin hne hcy
  · intro env data p hs af fresh hp
    simp only [validate_schema, loadSchema, hp]
    rw [exceptBind_ok, exceptBind_ok]
    split_ifs <;> exact ⟨_, rfl⟩

/-- Witness for C7: the two-flow cycle `A → B → A` is reported, and
`validate_schema` with the reachable explicit schema path returns
`Except.ok` on it. -/
theorem detect_cycle_iff_hasCycle_witness :
    (detect_cycle exC7 = true ↔ hasCycle (edgesOf exC7)) ∧
    ∃ d, validate_schema exEnv
      { result := some { flowElements := some exC7 } } (some "schema.json") true
      (fun _ => "x") = Except.ok d :=
  ⟨detect_cycle_iff_hasCycle.1 exC7,
   detect_cycle_iff_hasCycle.2 exEnv { result := some { flowElements := some exC7 } }
     "schema.json" 1 true (fun _ => "x") rfl⟩

end BpmnNeo4j
